import Mathlib

/-!
# bootleg-postman

A shallow embedding of `bootleg-postman.go`, a raw HTTP/HTTPS GET client with a
profiling mode, and proofs about its dispatch, its request bytes, its status
code extraction and the statistics of the profiler.

Conventions of the embedding.

* A Go `string` is a list of bytes (`Bytes`).
* The outside world of one request is an explicit value of type `Exchange`:
  the certificate pool, the dial, the measured duration, and the response as
  the `textproto` reader hands it out. A response is a finite sequence of
  successful `tp.ReadLine()` calls, each with the value of
  `reader.Buffered()` observed after it, followed by a call that fails. After
  the failing call `reader.Buffered()` is `0`: `bufio.Reader` hands out its
  whole buffer before it reports a read error. A connection that never fails
  keeps the read loop running and has no counterpart here.
* A function of the program returns a `Run`: the events it caused, in order,
  and how it ended (normal return, run-time panic, `os.Exit`).
* `int` and `int64` arithmetic wraps at 64 bits (`wrap64`); the program only
  compiles where `int` has 64 bits (`smallestRes := math.MaxInt64`).
* `float32` arithmetic is IEEE-754 binary32 with round-to-nearest-even, carried
  out exactly on integers.
* Of the standard library, `net/url.Parse` follows the source of Go 1.15
  (the release current when the program was written), `sort.Slice` is the
  ascending rearrangement, and `%4.2f` is the exact decimal expansion rounded
  to two places, ties to even, as `strconv` produces it.
-/

namespace BootlegPostman

/-! ## Strings -/

/-- A Go string: an immutable sequence of bytes. -/
abbrev Bytes := List UInt8

/-- The bytes of a string literal (UTF-8). -/
def B (s : String) : Bytes := s.toList.flatMap String.utf8EncodeChar

/-- Go `strings.HasPrefix`. -/
def hasPrefix (s p : Bytes) : Bool := p.isPrefixOf s

/-- Go `strings.HasSuffix`. -/
def hasSuffix (s p : Bytes) : Bool := p.isSuffixOf s

/-- Go `strings.Index`: offset of the first occurrence of `sub` in `s`. -/
def index : Bytes → Bytes → Option Nat
  | [], sub => if sub = [] then some 0 else none
  | c :: s, sub =>
    if hasPrefix (c :: s) sub then some 0
    else (index s sub).map (· + 1)

/-- Go `strings.LastIndex`: offset of the last occurrence of `sub` in `s`. -/
def lastIndex : Bytes → Bytes → Option Nat
  | [], sub => if sub = [] then some 0 else none
  | c :: s, sub =>
    match lastIndex s sub with
    | some i => some (i + 1)
    | none => if hasPrefix (c :: s) sub then some 0 else none

/-- Go `strings.Contains`. -/
def contains (s sub : Bytes) : Bool := (index s sub).isSome

/-- Go `strings.IndexByte`. -/
def indexByte (s : Bytes) (c : UInt8) : Option Nat := index s [c]

/-- Go `strings.Count` for a one-byte separator. -/
def countByte (s : Bytes) (c : UInt8) : Nat := s.count c

/-! ## Machine integers -/

/-- The largest `int64` (`math.MaxInt64`). -/
def maxInt64 : Int := 9223372036854775807

/-- Two's-complement wrap-around of a 64-bit signed integer. -/
def wrap64 (x : Int) : Int := (x + 9223372036854775808) % 18446744073709551616 - 9223372036854775808

/-- Go `+` on `int` / `int64`. -/
def addInt (a b : Int) : Int := wrap64 (a + b)

/-- A `time.Duration`: a signed 64-bit count of nanoseconds. -/
structure Duration where
  ns : Int
  inRange : -9223372036854775808 ≤ ns ∧ ns ≤ 9223372036854775807

instance : DecidableEq Duration := fun a b =>
  if h : a.ns = b.ns then isTrue (by cases a; cases b; simp_all)
  else isFalse (fun e => h (by rw [e]))

/-- Go `Duration.Milliseconds`: `int64(d) / 1e6`, truncated toward zero. -/
def Duration.Milliseconds (d : Duration) : Int := Int.tdiv d.ns 1000000

/-! ## Outcomes and events -/

/-- Errors of `net/url.Parse`. -/
inductive UrlError
  /-- The message `net/url: invalid control character in URL`. -/
  | ctlByte
  /-- The message `missing protocol scheme`. -/
  | missingScheme
  /-- The message `first path segment in URL cannot contain colon`. -/
  | colonInFirstSegment
  /-- The message `missing ']' in host`. -/
  | missingBracket
  /-- The message `invalid port ... after host`. -/
  | invalidPort (port : Bytes)
  /-- The message `net/url: invalid userinfo`. -/
  | invalidUserinfo
  /-- An `EscapeError`: a malformed or forbidden percent escape. -/
  | escape (s : Bytes)
  /-- An `InvalidHostError`: a byte that a host may not contain. -/
  | invalidHost (s : Bytes)
  deriving DecidableEq, Repr

deriving instance DecidableEq for Except

/-- Run-time panics of the program. -/
inductive Fault
  /-- The call `panic(err)` of `getReq` after a failed `url.Parse`. -/
  | urlParse (e : UrlError)
  /-- The call `panic("failed to parse root certificate")`. -/
  | rootCert
  /-- A nil pointer dereference (certificate pool that is nil). -/
  | nilDeref
  /-- Slice bounds out of range: `s[lo:hi]` with `hi > len(s)`. -/
  | sliceBounds (lo hi len : Nat)
  /-- Index out of range: `s[i]` with `i ≥ len(s)`. -/
  | indexRange (i len : Nat)
  /-- The call `make([]T, n)` with a negative `n`. -/
  | makeSlice
  deriving DecidableEq, Repr

/-- How a call ends. -/
inductive Result (α : Type)
  /-- Normal return. -/
  | ret (a : α)
  /-- A run-time panic unwinding the stack. -/
  | panic (f : Fault)
  /-- The process ended by `os.Exit(code)`. -/
  | exited (code : Int)
  deriving DecidableEq, Repr

/-- The two transport connectors. -/
inductive Connector
  /-- The function `httpsRequest`. -/
  | secure
  /-- The function `httpRequest`. -/
  | plain
  deriving DecidableEq, Repr

/-- Observable events of a run. The entry into a connector is recorded as an
event of its own, so that a run tells which connector was invoked, how often
and with which arguments. -/
inductive Event
  /-- Entry into a connector with its arguments. -/
  | call (c : Connector) (host path : Bytes) (print : Bool)
  /-- The call `conn.Write(data)`. -/
  | write (data : Bytes)
  /-- Text written to standard output (`fmt.Println`, `fmt.Printf`). -/
  | stdout (text : Bytes)
  /-- Text written to standard error (builtin `println`, `print`). -/
  | stderr (text : Bytes)
  /-- The deferred `conn.Close()`. -/
  | close
  deriving DecidableEq, Repr

/-- The events of a call and the way it ended. -/
structure Run (α : Type) where
  events : List Event
  result : Result α
  deriving DecidableEq, Repr

/-- The connector entries among the events. -/
def Run.calls {α : Type} (r : Run α) : List Event :=
  r.events.filter fun e => match e with
    | .call _ _ _ _ => true
    | _ => false

/-- The payloads of the `conn.Write` calls among the events. -/
def Run.written {α : Type} (r : Run α) : List Bytes :=
  r.events.filterMap fun e => match e with
    | .write d => some d
    | _ => none

/-- The value returned by a connector: `(time.Duration, int, string)`. -/
structure Measurement where
  elapsed : Duration
  totalBytes : Int
  status : Bytes
  deriving DecidableEq

/-- The outside world during one request. -/
structure Exchange where
  /-- Whether `x509.SystemCertPool()` returned a pool (it is nil otherwise). -/
  systemPool : Bool
  /-- The result `ok` of `cp.AppendCertsFromPEM(rootPEM)`. -/
  pemOk : Bool
  /-- The error text of a failed dial, if the dial fails. -/
  dialErr : Option Bytes
  /-- The successive results of `tp.ReadLine()` that succeed, each with the
  value of `reader.Buffered()` observed after it. -/
  lines : List (Bytes × Nat)
  /-- The error text of the read that fails, ending the response. -/
  readErr : Bytes
  /-- The value of `time.Since(start)` after the read loop. -/
  elapsed : Duration

/-! ## Transport connectors -/

/-- The text `fmt.Sprintf("GET %s HTTP/1.1\r\nHost: %s\r\nConnection: close\r\n\r\n", path, host)`. -/
def requestText (path host : Bytes) : Bytes :=
  B "GET " ++ path ++ B " HTTP/1.1\r\nHost: " ++ host ++ B "\r\nConnection: close\r\n\r\n"

/-- The text of `fmt.Println("Error connecting to:", host, "\n", err.Error())`. -/
def connectErrorText (host err : Bytes) : Bytes :=
  B "Error connecting to: " ++ host ++ B " \n " ++ err ++ B "\n"

/-- The text of `fmt.Println("Error reading response:", err.Error())`. -/
def readErrorText (err : Bytes) : Bytes :=
  B "Error reading response: " ++ err ++ B "\n"

/-- Builtin `println(s)` for one string. -/
def printlnEvent (s : Bytes) : Event := .stderr (s ++ B "\n")

/-- Go slice expression `s[lo:hi]` on a string. -/
def slice (s : Bytes) (lo hi : Nat) : Except Fault Bytes :=
  if lo ≤ hi ∧ hi ≤ s.length then .ok ((s.drop lo).take (hi - lo))
  else .error (.sliceBounds lo hi s.length)

/-- The printing read loop of `httpsRequest`: `reader.Buffered()` is added
right after `tp.ReadLine()`, before the error test, so it is also added after
the read that fails, when it is `0`. -/
def httpsPrintLoop : List (Bytes × Nat) → Int → List Event × Int
  | [], totalBytes => ([], addInt totalBytes 0)
  | (line, buffered) :: rest, totalBytes =>
    let r := httpsPrintLoop rest (addInt totalBytes buffered)
    (printlnEvent line :: r.1, r.2)

/-- The silent read loop of `httpsRequest`: `reader.Buffered()` is added after
the error test. -/
def httpsQuietLoop : List (Bytes × Nat) → Int → Int
  | [], totalBytes => totalBytes
  | (_, buffered) :: rest, totalBytes => httpsQuietLoop rest (addInt totalBytes buffered)

/-- The printing read loop of `httpRequest`: `reader.Buffered()` is added after
the error test. -/
def httpPrintLoop : List (Bytes × Nat) → Int → List Event × Int
  | [], totalBytes => ([], totalBytes)
  | (line, buffered) :: rest, totalBytes =>
    let r := httpPrintLoop rest (addInt totalBytes buffered)
    (printlnEvent line :: r.1, r.2)

/-- The silent read loop of `httpRequest`. -/
def httpQuietLoop : List (Bytes × Nat) → Int → Int
  | [], totalBytes => totalBytes
  | (_, buffered) :: rest, totalBytes => httpQuietLoop rest (addInt totalBytes buffered)

/-- The end of both connectors: `status := statusLine[9:12]`, the return, and
the deferred `conn.Close()`. -/
def finish (env : Exchange) (pre : List Event) (statusLine : Bytes) (totalBytes : Int) :
    Run Measurement :=
  match slice statusLine 9 12 with
  | .error f => ⟨pre ++ [.close], .panic f⟩
  | .ok status => ⟨pre ++ [.close], .ret ⟨env.elapsed, totalBytes, status⟩⟩

/-- The function `httpsRequest(host, path, print)`. -/
def httpsRequest (env : Exchange) (host path : Bytes) (print : Bool) : Run Measurement :=
  let entry := Event.call .secure host path print
  if !env.pemOk then ⟨[entry], .panic .rootCert⟩
  else if !env.systemPool then ⟨[entry], .panic .nilDeref⟩
  else
    match env.dialErr with
    | some err => ⟨[entry, .stdout (connectErrorText host err)], .exited 1⟩
    | none =>
      let w := Event.write (requestText path host)
      match env.lines with
      | [] => ⟨[entry, w, .stdout (readErrorText env.readErr)], .exited 1⟩
      | (statusLine, buffered) :: rest =>
        let totalBytes := addInt 0 buffered
        if print then
          let r := httpsPrintLoop rest totalBytes
          finish env ([entry, w, printlnEvent statusLine] ++ r.1) statusLine r.2
        else
          finish env [entry, w] statusLine (httpsQuietLoop rest totalBytes)

/-- The function `httpRequest(host, path, print)`. A failed
`net.ResolveTCPAddr` leaves a nil address, on which `net.DialTCP` fails. -/
def httpRequest (env : Exchange) (host path : Bytes) (print : Bool) : Run Measurement :=
  let entry := Event.call .plain host path print
  match env.dialErr with
  | some err => ⟨[entry, .stdout (connectErrorText host err)], .exited 1⟩
  | none =>
    let w := Event.write (requestText path host)
    match env.lines with
    | [] => ⟨[entry, w, .stdout (readErrorText env.readErr)], .exited 1⟩
    | (statusLine, buffered) :: rest =>
      let totalBytes := addInt 0 buffered
      if print then
        let r := httpPrintLoop rest totalBytes
        finish env ([entry, w, printlnEvent statusLine] ++ r.1) statusLine r.2
      else
        finish env [entry, w] statusLine (httpQuietLoop rest totalBytes)

/-! ## `net/url.Parse`

The parts of Go's `net/url` that decide the error, `Host` and `Path` of
`url.Parse`. The fields `RawPath`, `RawFragment` and `User`, which `getReq`
never reads, are left out (user information is still validated). -/

/-- The parsed URL (Go `url.URL`). -/
structure URL where
  Scheme : Bytes := []
  Opaque : Bytes := []
  Host : Bytes := []
  Path : Bytes := []
  ForceQuery : Bool := false
  RawQuery : Bytes := []
  Fragment : Bytes := []
  deriving DecidableEq, Repr

/-- Go `encoding` modes of `net/url` that `Parse` uses. -/
inductive Encoding
  | encodePath
  | encodeHost
  | encodeZone
  | encodeUserPassword
  | encodeFragment
  deriving DecidableEq, Repr

/-- Go `stringContainsCTLByte`. -/
def stringContainsCTLByte (s : Bytes) : Bool := s.any fun b => b < 0x20 || b == 0x7f

/-- ASCII letter test used by `getScheme`. -/
def isAlpha (c : UInt8) : Bool := (0x61 ≤ c && c ≤ 0x7a) || (0x41 ≤ c && c ≤ 0x5a)

/-- ASCII digit test. -/
def isDigit (c : UInt8) : Bool := 0x30 ≤ c && c ≤ 0x39

/-- The scan of `getScheme` from offset `i` (`seen` holds the bytes before `i`). -/
def getSchemeFrom (rawurl : Bytes) : Bytes → Bytes → Except UrlError (Bytes × Bytes)
  | _, [] => .ok ([], rawurl)
  | seen, c :: rest =>
    if isAlpha c then getSchemeFrom rawurl (seen ++ [c]) rest
    else if isDigit c || c == 0x2b || c == 0x2d || c == 0x2e then
      if seen = [] then .ok ([], rawurl) else getSchemeFrom rawurl (seen ++ [c]) rest
    else if c == 0x3a then
      if seen = [] then .error .missingScheme else .ok (seen, rest)
    else .ok ([], rawurl)

/-- Go `getScheme`: splits `scheme:rest`; no scheme gives `("", rawurl)`. -/
def getScheme (rawurl : Bytes) : Except UrlError (Bytes × Bytes) := getSchemeFrom rawurl [] rawurl

/-- Go `strings.ToLower` on ASCII text. -/
def toLower (s : Bytes) : Bytes := s.map fun c => if 0x41 ≤ c && c ≤ 0x5a then c + 0x20 else c

/-- Go `split(s, sep, cutc)` of `net/url`. -/
def split (s : Bytes) (sep : UInt8) (cutc : Bool) : Bytes × Bytes :=
  match indexByte s sep with
  | none => (s, [])
  | some i => if cutc then (s.take i, s.drop (i + 1)) else (s.take i, s.drop i)

/-- Go `ishex`. -/
def ishex (c : UInt8) : Bool :=
  (0x30 ≤ c && c ≤ 0x39) || (0x61 ≤ c && c ≤ 0x66) || (0x41 ≤ c && c ≤ 0x46)

/-- Go `unhex`. -/
def unhex (c : UInt8) : UInt8 :=
  if 0x30 ≤ c && c ≤ 0x39 then c - 0x30
  else if 0x61 ≤ c && c ≤ 0x66 then c - 0x61 + 10
  else if 0x41 ≤ c && c ≤ 0x46 then c - 0x41 + 10
  else 0

/-- Go `shouldEscape(c, encodeHost)`: the only mode in which `unescape` asks. -/
def shouldEscapeHost (c : UInt8) : Bool :=
  if isAlpha c || isDigit c then false
  else if c ∈ B "!$&'()*+,;=:[]<>\"" then false
  else if c ∈ B "-_.~" then false
  else true

/-- The first pass of Go `unescape`: every `%` must start a well-formed escape,
and hosts and zones restrict what may be written or escaped. -/
def unescapeCheck (mode : Encoding) : Bytes → Except UrlError Unit
  | [] => .ok ()
  | c :: rest =>
    if c == 0x25 then
      match rest with
      | h :: l :: rest' =>
        if !ishex h || !ishex l then .error (.escape ((c :: rest).take 3))
        else if mode = .encodeHost ∧ unhex h < 8 ∧ [c, h, l] ≠ B "%25" then
          .error (.escape [c, h, l])
        else if mode = .encodeZone ∧ [c, h, l] ≠ B "%25" ∧ (unhex h <<< 4 ||| unhex l) ≠ 0x20
            ∧ shouldEscapeHost (unhex h <<< 4 ||| unhex l) then
          .error (.escape [c, h, l])
        else unescapeCheck mode rest'
      | _ => .error (.escape ((c :: rest).take 3))
    else if (mode = .encodeHost ∨ mode = .encodeZone) ∧ c < 0x80 ∧ shouldEscapeHost c then
      .error (.invalidHost [c])
    else unescapeCheck mode rest

/-- The second pass of Go `unescape`: each `%XY` becomes the byte it denotes.
It runs on text that passed `unescapeCheck`, where every `%` has two digits. -/
def unescapeDecode : Bytes → Bytes
  | [] => []
  | c :: rest =>
    if c == 0x25 then
      match rest with
      | h :: l :: rest' => (unhex h <<< 4 ||| unhex l) :: unescapeDecode rest'
      | _ => []
    else c :: unescapeDecode rest

/-- Go `unescape(s, mode)` for the modes of `Parse` (none turns `+` into a space). -/
def unescape (s : Bytes) (mode : Encoding) : Except UrlError Bytes :=
  match unescapeCheck mode s with
  | .error e => .error e
  | .ok () => .ok (unescapeDecode s)

/-- Go `validOptionalPort`. -/
def validOptionalPort (port : Bytes) : Bool :=
  match port with
  | [] => true
  | c :: digits => c == 0x3a && digits.all isDigit

/-- Go `validUserinfo`. -/
def validUserinfo (s : Bytes) : Bool :=
  s.all fun r => isAlpha r || isDigit r || r ∈ B "-._:~!$&'()*+,;=%@"

/-- Go `parseHost`: `host[:port]`, with bracketed IP literals and zones. -/
def parseHost (host : Bytes) : Except UrlError Bytes :=
  if hasPrefix host (B "[") then
    match lastIndex host (B "]") with
    | none => .error .missingBracket
    | some i =>
      if !validOptionalPort (host.drop (i + 1)) then .error (.invalidPort (host.drop (i + 1)))
      else
        match index (host.take i) (B "%25") with
        | some zone =>
          match unescape (host.take zone) .encodeHost with
          | .error e => .error e
          | .ok host1 =>
            match unescape ((host.take i).drop zone) .encodeZone with
            | .error e => .error e
            | .ok host2 =>
              match unescape (host.drop i) .encodeHost with
              | .error e => .error e
              | .ok host3 => .ok (host1 ++ host2 ++ host3)
        | none => unescape host .encodeHost
  else
    match lastIndex host (B ":") with
    | some i =>
      if !validOptionalPort (host.drop i) then .error (.invalidPort (host.drop i))
      else unescape host .encodeHost
    | none => unescape host .encodeHost

/-- Go `parseAuthority`: `[userinfo@]host`; only the host is kept. -/
def parseAuthority (authority : Bytes) : Except UrlError Bytes :=
  match lastIndex authority (B "@") with
  | none => parseHost authority
  | some i =>
    match parseHost (authority.drop (i + 1)) with
    | .error e => .error e
    | .ok host =>
      let userinfo := authority.take i
      if !validUserinfo userinfo then .error .invalidUserinfo
      else if !contains userinfo (B ":") then
        match unescape userinfo .encodeUserPassword with
        | .error e => .error e
        | .ok _ => .ok host
      else
        let up := split userinfo 0x3a true
        match unescape up.1 .encodeUserPassword with
        | .error e => .error e
        | .ok _ =>
          match unescape up.2 .encodeUserPassword with
          | .error e => .error e
          | .ok _ => .ok host

/-- Go `(*URL).setPath`: `Path` is the percent-decoded path text. -/
def setPath (u : URL) (p : Bytes) : Except UrlError URL :=
  match unescape p .encodePath with
  | .error e => .error e
  | .ok path => .ok { u with Path := path }

/-- Go `(*URL).setFragment`. -/
def setFragment (u : URL) (f : Bytes) : Except UrlError URL :=
  match unescape f .encodeFragment with
  | .error e => .error e
  | .ok frag => .ok { u with Fragment := frag }

/-- Go `parse(rawurl, viaRequest)` with `viaRequest = false`. -/
def parse (rawurl : Bytes) : Except UrlError URL :=
  if stringContainsCTLByte rawurl then .error .ctlByte
  else if rawurl = B "*" then .ok { Path := B "*" }
  else
    match getScheme rawurl with
    | .error e => .error e
    | .ok (scheme, rest0) =>
      let url : URL := { Scheme := toLower scheme }
      let q : URL × Bytes :=
        if hasSuffix rest0 (B "?") && countByte rest0 0x3f == 1 then
          ({ url with ForceQuery := true }, rest0.take (rest0.length - 1))
        else
          let s := split rest0 0x3f true
          ({ url with RawQuery := s.2 }, s.1)
      let url := q.1
      let rest := q.2
      if !hasPrefix rest (B "/") && url.Scheme ≠ [] then .ok { url with Opaque := rest }
      else if !hasPrefix rest (B "/") &&
          (match index rest (B ":"), index rest (B "/") with
            | some colon, some slash => decide (colon < slash)
            | some _, none => true
            | none, _ => false) then
        .error .colonInFirstSegment
      else if (url.Scheme ≠ [] || !hasPrefix rest (B "///")) && hasPrefix rest (B "//") then
        let a := split (rest.drop 2) 0x2f false
        match parseAuthority a.1 with
        | .error e => .error e
        | .ok host => setPath { url with Host := host } a.2
      else setPath url rest

/-- Go `url.Parse`: the fragment is cut off first and decoded last. -/
def Parse (rawurl : Bytes) : Except UrlError URL :=
  let s := split rawurl 0x23 true
  match parse s.1 with
  | .error e => .error e
  | .ok url =>
    if s.2 = [] then .ok url
    else setFragment url s.2

/-! ## Single-request executor -/

/-- The function `getReq(address)`; `env` is the world of the one request it may make. -/
def getReq (env : Exchange) (address : Bytes) : Run Unit :=
  match Parse address with
  | .error err => ⟨[], .panic (.urlParse err)⟩
  | .ok u =>
    let host := u.Host
    let path := if u.Path = [] then B "/" else u.Path
    if contains address (B "https://") then
      let r := httpsRequest env host path true
      ⟨r.events, match r.result with
        | .ret _ => .ret ()
        | .panic f => .panic f
        | .exited c => .exited c⟩
    else if contains address (B "http://") then
      let r := httpRequest env host path true
      ⟨r.events, match r.result with
        | .ret _ => .ret ()
        | .panic f => .panic f
        | .exited c => .exited c⟩
    else ⟨[printlnEvent (B "Please include http or https in the URL.")], .ret ()⟩

/-! ## Printing numbers -/

/-- The decimal digits of `n`, most significant first, after `acc`; `fuel`
bounds the number of digits. -/
def decimalDigits : Nat → Nat → Bytes → Bytes
  | 0, _, acc => acc
  | fuel + 1, n, acc =>
    let acc := (0x30 + UInt8.ofNat (n % 10)) :: acc
    if n / 10 = 0 then acc else decimalDigits fuel (n / 10) acc

/-- The decimal text of a natural number. -/
def decimal (n : Nat) : Bytes := decimalDigits (n + 1) n []

/-- The decimal text of an integer, as builtin `println` writes an `int`. -/
def printInt (x : Int) : Bytes :=
  if x < 0 then 0x2d :: decimal x.natAbs else decimal x.natAbs

/-! ## `float32` -/

/-- A finite `float32` value `± mant * 2 ^ exp`; `mant` is `0` or has exactly
24 bits. Every value the program computes lies in the normal range of
binary32, so subnormals, infinities and NaN do not occur. -/
structure F32 where
  neg : Bool
  mant : Nat
  exp : Int
  deriving DecidableEq, Repr

/-- Scales `p / q` down by powers of two until it is below `2 ^ 24`. -/
def scaleDown : Nat → Nat → Nat → Int → Nat × Int
  | 0, _, q, e => (q, e)
  | fuel + 1, p, q, e =>
    if p / q < 16777216 then (q, e) else scaleDown fuel p (2 * q) (e + 1)

/-- Scales `p / q` up by powers of two until it is at least `2 ^ 23`. -/
def scaleUp : Nat → Nat → Nat → Int → Nat × Int
  | 0, p, _, e => (p, e)
  | fuel + 1, p, q, e =>
    if 8388608 ≤ p / q then (p, e) else scaleUp fuel (2 * p) q (e - 1)

/-- Rounding of the positive rational `p / q` to the nearest `float32`, ties to
the even mantissa (IEEE-754 round-to-nearest-even). -/
def roundF32 (neg : Bool) (p q : Nat) : F32 :=
  if p = 0 ∨ q = 0 then ⟨neg, 0, 0⟩
  else
    let d := scaleDown 2048 p q 0
    let u := scaleUp 2048 p d.1 d.2
    let p' := u.1
    let q' := d.1
    let e := u.2
    let m := p' / q'
    let r := p' % q'
    let m := if q' < 2 * r ∨ (2 * r = q' ∧ m % 2 = 1) then m + 1 else m
    if m = 16777216 then ⟨neg, 8388608, e + 1⟩ else ⟨neg, m, e⟩

/-- Go conversion `float32(k)` of an `int`. -/
def F32.ofInt (k : Int) : F32 := roundF32 (decide (k < 0)) k.natAbs 1

/-- Go `/` on `float32` (divisor not zero). -/
def F32.div (a b : F32) : F32 :=
  roundF32 (a.neg != b.neg) (a.mant * 2 ^ (a.exp - b.exp).toNat) (b.mant * 2 ^ (b.exp - a.exp).toNat)

/-- Go `*` on `float32`. -/
def F32.mul (a b : F32) : F32 :=
  roundF32 (a.neg != b.neg) (a.mant * b.mant * 2 ^ (a.exp + b.exp).toNat) (2 ^ (-(a.exp + b.exp)).toNat)

/-- The value of `x` in hundredths, rounded to the nearest integer, ties to
even: the digits `strconv` keeps for the verb `%.2f`. -/
def F32.hundredths (x : F32) : Nat :=
  let p := x.mant * 100 * 2 ^ x.exp.toNat
  let q := 2 ^ (-x.exp).toNat
  let h := p / q
  let r := p % q
  if q < 2 * r ∨ (2 * r = q ∧ h % 2 = 1) then h + 1 else h

/-- The text of `fmt.Sprintf("%4.2f", x)`: the sign if negative, two decimals,
padded with spaces on the left to at least four bytes. -/
def F32.format (x : F32) : Bytes :=
  let h := x.hundredths
  let body := decimal (h / 100) ++ [0x2e, 0x30 + UInt8.ofNat (h % 100 / 10), 0x30 + UInt8.ofNat (h % 10)]
  let text := if x.neg then 0x2d :: body else body
  List.replicate (4 - text.length) 0x20 ++ text

/-! ## Profiler -/

/-- The accumulators of the request loop of `getProfile`. -/
structure Acc where
  /-- The keys of the map `errorCodes`, each once, oldest first. -/
  errorCodes : List Bytes
  times : List Int
  totalTime : Int
  fastestTime : Int
  slowestTime : Int
  smallestRes : Int
  largestRes : Int
  failCount : Int
  deriving DecidableEq, Repr

/-- The accumulators before the first request. -/
def Acc.init (numReq : Nat) : Acc where
  errorCodes := []
  times := List.replicate numReq 0
  totalTime := 0
  fastestTime := maxInt64
  slowestTime := 0
  smallestRes := maxInt64
  largestRes := 0
  failCount := 0

/-- The body of the request loop after `httpsRequest` returned `m` as the
request number `i`. -/
def record (i : Nat) (m : Measurement) (a : Acc) : Except Fault Acc :=
  let ms := m.elapsed.Milliseconds
  let a := { a with totalTime := addInt a.totalTime ms, times := a.times.set i ms }
  let a := if a.fastestTime > ms then { a with fastestTime := ms } else a
  let a := if a.slowestTime < ms then { a with slowestTime := ms } else a
  let a := if a.smallestRes > m.totalBytes then { a with smallestRes := m.totalBytes } else a
  let a := if a.largestRes < m.totalBytes then { a with largestRes := m.totalBytes } else a
  match m.status with
  | [] => .error (.indexRange 0 0)
  | c :: _ =>
    if c != 0x32 then
      .ok { a with
        errorCodes := if m.status ∈ a.errorCodes then a.errorCodes else a.errorCodes ++ [m.status]
        failCount := addInt a.failCount 1 }
    else .ok a

/-- The fixed host of the profiler. -/
def profileHost : Bytes := B "my-worker.ejchen.workers.dev"

/-- The fixed path of the profiler. -/
def profilePath : Bytes := B "/links"

/-- The request loop `for i := 0; i < numReq; i++`: `remaining` iterations are
left and `i` is the loop counter; request `i` meets the world `world i`. -/
def requestLoop (world : Nat → Exchange) : Nat → Nat → Acc → Run Acc
  | 0, _, a => ⟨[], .ret a⟩
  | remaining + 1, i, a =>
    let r := httpsRequest (world i) profileHost profilePath false
    match r.result with
    | .panic f => ⟨r.events, .panic f⟩
    | .exited c => ⟨r.events, .exited c⟩
    | .ret m =>
      match record i m a with
      | .error f => ⟨r.events, .panic f⟩
      | .ok a' =>
        let rest := requestLoop world remaining (i + 1) a'
        ⟨r.events ++ rest.events, rest.result⟩

/-- Go `sort.Slice(times, func(i, j int) bool { return times[i] < times[j] })`:
the ascending rearrangement of `times`. -/
def sortSlice (times : List Int) : List Int := times.insertionSort (· ≤ ·)

/-- The median of the sorted `times`, as the median calculation of `getProfile`. -/
def medianOf (numReq : Nat) (times : List Int) : Except Fault Int :=
  if numReq % 2 = 0 then
    match times[numReq / 2]?, times[numReq / 2 - 1]? with
    | some hi, some lo => .ok (Int.tdiv (addInt hi lo) 2)
    | none, _ => .error (.indexRange (numReq / 2) times.length)
    | _, none => .error (.indexRange (numReq / 2 - 1) times.length)
  else
    match times[numReq / 2]? with
    | some mid => .ok mid
    | none => .error (.indexRange (numReq / 2) times.length)

/-- The expression `(float32(numReq-failCount) / float32(numReq)) * 100.0`. -/
def numSuccessful (numReq failCount : Int) : F32 :=
  ((F32.ofInt (wrap64 (numReq - failCount))).div (F32.ofInt numReq)).mul (F32.ofInt 100)

/-- The values that the summary of `getProfile` prints. -/
structure Summary where
  numReq : Int
  fastestTime : Int
  slowestTime : Int
  meanTime : Int
  medianTime : Int
  /-- The text that `%4.2f` produces for the percentage of successes. -/
  percentage : Bytes
  /-- The error codes printed by the `range` over the map, each key once (the
  runtime chooses the order; here oldest first). -/
  errorCodes : List Bytes
  smallestRes : Int
  largestRes : Int
  deriving DecidableEq, Repr

/-- The summary lines, as `getProfile` prints them. -/
def Summary.render (s : Summary) : List Event :=
  [ .stderr (B "Number of requests: " ++ printInt s.numReq ++ B "\n"),
    .stderr (B "Fastest response time: " ++ printInt s.fastestTime ++ B " ms\n"),
    .stderr (B "Slowest response time: " ++ printInt s.slowestTime ++ B " ms\n"),
    .stderr (B "Mean response time: " ++ printInt s.meanTime ++ B " ms\n"),
    .stderr (B "Median response time: " ++ printInt s.medianTime ++ B " ms\n"),
    .stdout (B "Percentage of requests that succeeded: " ++ s.percentage),
    .stderr (B "%\n"),
    .stderr (B "Error codes: ") ]
  ++ s.errorCodes.map (fun k => Event.stdout (k ++ B " "))
  ++ [ .stderr (B "\n"),
    .stderr (B "Smallest response (bytes): " ++ printInt s.smallestRes ++ B "\n"),
    .stderr (B "Largest response (bytes): " ++ printInt s.largestRes ++ B "\n"),
    .stderr (B "----------------------------------------------------\n") ]

/-- The summary computed from the accumulators after the request loop. -/
def summarize (numReq : Nat) (a : Acc) : Except Fault Summary :=
  match medianOf numReq (sortSlice a.times) with
  | .error f => .error f
  | .ok medianTime =>
    .ok {
      numReq := numReq
      fastestTime := a.fastestTime
      slowestTime := a.slowestTime
      meanTime := Int.tdiv a.totalTime numReq
      medianTime := medianTime
      percentage := (numSuccessful numReq a.failCount).format
      errorCodes := a.errorCodes
      smallestRes := a.smallestRes
      largestRes := a.largestRes }

/-- The function `getProfile(numReq)`. It returns nothing in Go; the value of
the run is the summary it printed, if it printed one. -/
def getProfile (world : Nat → Exchange) (numReq : Int) : Run (Option Summary) :=
  if numReq = 0 then ⟨[], .ret none⟩
  else
    let header := [printlnEvent (B "----------------------------------------------------"),
      printlnEvent (B "Website: " ++ B "https://" ++ profileHost ++ profilePath)]
    if numReq < 0 then ⟨header, .panic .makeSlice⟩
    else
      let r := requestLoop world numReq.toNat 0 (Acc.init numReq.toNat)
      match r.result with
      | .panic f => ⟨header ++ r.events, .panic f⟩
      | .exited c => ⟨header ++ r.events, .exited c⟩
      | .ret a =>
        match summarize numReq.toNat a with
        | .error f => ⟨header ++ r.events, .panic f⟩
        | .ok s => ⟨header ++ r.events ++ s.render, .ret (some s)⟩

/-! ## Sample worlds -/

/-- The world of a request answered by the one line `HTTP/1.1 200 OK`. -/
def okExchange : Exchange where
  systemPool := true
  pemOk := true
  dialErr := none
  lines := [(B "HTTP/1.1 200 OK", 10)]
  readErr := B "EOF"
  elapsed := ⟨7000000, by decide⟩

/-- The world of a request answered by the one short line `HTTP/1.1`. -/
def shortExchange : Exchange where
  systemPool := true
  pemOk := true
  dialErr := none
  lines := [(B "HTTP/1.1", 10)]
  readErr := B "EOF"
  elapsed := ⟨7000000, by decide⟩

/-- A duration of `k` milliseconds (for `k` below a million). -/
def millis (k : Nat) : Duration := ⟨((k % 1000000 : Nat) : Int) * 1000000, by omega⟩

/-- The world of a request that takes `k` milliseconds and is answered by the
one line `HTTP/1.1 <status> OK`, with `bytes` bytes buffered after it. -/
def reply (k bytes : Nat) (status : Bytes) : Exchange where
  systemPool := true
  pemOk := true
  dialErr := none
  lines := [(B "HTTP/1.1 " ++ status ++ B " OK", bytes)]
  readErr := B "EOF"
  elapsed := millis k

/-- The world of a profiling run whose successive requests meet the listed worlds. -/
def replies (rs : List Exchange) (i : Nat) : Exchange := rs.getD i okExchange

/-- Three requests taking 10, 20 and 30 ms. -/
def threeTimes : List Exchange := [reply 10 100 (B "200"), reply 20 100 (B "200"), reply 30 100 (B "200")]

/-- Four requests taking 10, 20, 30 and 40 ms. -/
def fourTimes : List Exchange :=
  [reply 10 100 (B "200"), reply 20 100 (B "200"), reply 30 100 (B "200"), reply 40 100 (B "200")]

/-- Five successful requests with byte counts 100, 150, 120, 200 and 90. -/
def fiveSizes : List Exchange :=
  [reply 12 100 (B "200"), reply 15 150 (B "200"), reply 11 120 (B "200"),
    reply 19 200 (B "200"), reply 14 90 (B "200")]

/-- Four requests, one of which fails with `500`. -/
def oneFailure : List Exchange :=
  [reply 10 100 (B "200"), reply 20 100 (B "500"), reply 30 100 (B "200"), reply 40 100 (B "200")]

/-- Three requests, two of which fail, both with `500`. -/
def twoFailures : List Exchange :=
  [reply 10 100 (B "500"), reply 20 100 (B "200"), reply 30 100 (B "500")]

/-- The measurement that `httpsRequest` returns in the world `reply k bytes status`
for a three-byte status. -/
def measured (k bytes : Nat) (status : Bytes) : Measurement := ⟨millis k, bytes, status⟩

/-- A run of 947 requests of which the first 176 fail with `500`. -/
def world947 (i : Nat) : Exchange :=
  if i < 176 then reply 1 10 (B "500") else reply 1 10 (B "200")

/-- The measurements that the requests of `world947` return. -/
def measured947 : List Measurement :=
  List.replicate 176 (measured 1 10 (B "500")) ++ List.replicate 771 (measured 1 10 (B "200"))

/-! ## Closed forms used in the proofs -/

/-- The test `status[0] != '2'` of the request loop. -/
def failed (status : Bytes) : Bool := status.head? != some 0x32

/-- The accumulators after one iteration of the request loop whose request
returned `m` (the non-panicking branch of `record`). -/
def step (i : Nat) (m : Measurement) (a : Acc) : Acc where
  errorCodes :=
    if failed m.status then
      if m.status ∈ a.errorCodes then a.errorCodes else a.errorCodes ++ [m.status]
    else a.errorCodes
  times := a.times.set i m.elapsed.Milliseconds
  totalTime := addInt a.totalTime m.elapsed.Milliseconds
  fastestTime := if a.fastestTime > m.elapsed.Milliseconds then m.elapsed.Milliseconds
    else a.fastestTime
  slowestTime := if a.slowestTime < m.elapsed.Milliseconds then m.elapsed.Milliseconds
    else a.slowestTime
  smallestRes := if a.smallestRes > m.totalBytes then m.totalBytes else a.smallestRes
  largestRes := if a.largestRes < m.totalBytes then m.totalBytes else a.largestRes
  failCount := if failed m.status then addInt a.failCount 1 else a.failCount

/-- The accumulators after the iterations `i`, `i + 1`, ... whose requests
returned the measurements of the list. -/
def steps : Nat → List Measurement → Acc → Acc
  | _, [], a => a
  | i, m :: ms, a => steps (i + 1) ms (step i m a)

/-- The path component of a URL without fragment, as it is written in it and
as `parse` delimits it: the text that is left when the scheme (up to the
first `:`), the query (from the first `?`) and the authority (after a leading
`//`, up to the next `/`) are cut off. It is `*` for the URL `*`, and empty
for an opaque URL (`scheme:text` where the text does not begin with `/`) and
for a URL that has no scheme because it begins with `:`. -/
def pathCore (s : Bytes) : Bytes :=
  if s = B "*" then B "*"
  else
    match getScheme s with
    | .error _ => []
    | .ok (scheme, rest0) =>
      let rest :=
        if hasSuffix rest0 (B "?") && countByte rest0 0x3f == 1 then
          rest0.take (rest0.length - 1)
        else (split rest0 0x3f true).1
      if !hasPrefix rest (B "/") && toLower scheme ≠ [] then []
      else if (toLower scheme ≠ [] || !hasPrefix rest (B "///")) && hasPrefix rest (B "//") then
        (split (rest.drop 2) 0x2f false).2
      else rest

/-- The path component of an address as it appears in the address: the path
component of what precedes the first `#`. -/
def pathText (address : Bytes) : Bytes := pathCore (split address 0x23 true).1


/-! ## Facts about the connectors -/

theorem written_finish (env : Exchange) (pre : List Event) (l : Bytes) (t : Int) :
    (finish env pre l t).written = pre.filterMap fun e => match e with
      | .write d => some d
      | _ => none := by
  unfold finish Run.written
  cases slice l 9 12 <;> simp

theorem httpsPrintLoop_no_write (rest : List (Bytes × Nat)) (t : Int) :
    (httpsPrintLoop rest t).1.filterMap (fun e => match e with
      | .write d => some d
      | _ => none) = [] := by
  induction rest generalizing t with
  | nil => simp [httpsPrintLoop]
  | cons x rest ih => simp [httpsPrintLoop, printlnEvent, ih]

theorem httpPrintLoop_no_write (rest : List (Bytes × Nat)) (t : Int) :
    (httpPrintLoop rest t).1.filterMap (fun e => match e with
      | .write d => some d
      | _ => none) = [] := by
  induction rest generalizing t with
  | nil => simp [httpPrintLoop]
  | cons x rest ih => simp [httpPrintLoop, printlnEvent, ih]

theorem slice_9_12 (l : Bytes) (h : 12 ≤ l.length) :
    ∃ a b c, l[9]? = some a ∧ l[10]? = some b ∧ l[11]? = some c ∧
      slice l 9 12 = .ok [a, b, c] := by
  refine ⟨l[9], l[10], l[11], by simp, by simp, by simp, ?_⟩
  have h9 : l.drop 9 = l[9] :: l[10] :: l[11] :: l.drop 12 := by
    rw [List.drop_eq_getElem_cons (by omega : 9 < l.length),
      List.drop_eq_getElem_cons (by omega : 10 < l.length),
      List.drop_eq_getElem_cons (by omega : 11 < l.length)]
  unfold slice
  rw [if_pos ⟨by omega, h⟩, h9]
  rfl

theorem slice_short (l : Bytes) (h : l.length < 12) :
    slice l 9 12 = .error (.sliceBounds 9 12 l.length) := by
  unfold slice
  rw [if_neg (by omega)]

/-- C3: once the connection is established, `httpRequest` and `httpsRequest`
write to it exactly one byte string,
`"GET " ++ path ++ " HTTP/1.1\r\nHost: " ++ host ++ "\r\nConnection: close\r\n\r\n"`,
and nothing else. -/
theorem request_bytes (env : Exchange) (host path : Bytes) (print : Bool)
    (hdial : env.dialErr = none) :
    (httpRequest env host path print).written
        = [B "GET " ++ path ++ B " HTTP/1.1\r\nHost: " ++ host ++ B "\r\nConnection: close\r\n\r\n"]
    ∧ (env.pemOk = true → env.systemPool = true →
      (httpsRequest env host path print).written
        = [B "GET " ++ path ++ B " HTTP/1.1\r\nHost: " ++ host ++ B "\r\nConnection: close\r\n\r\n"]) := by
  constructor
  · unfold httpRequest
    rw [hdial]
    rcases hl : env.lines with _ | ⟨⟨l, b⟩, rest⟩
    · simp [Run.written, requestText]
    · cases print <;>
        simp [written_finish, httpPrintLoop_no_write, printlnEvent, requestText]
  · intro hpem hpool
    unfold httpsRequest
    rw [hdial, hpem, hpool]
    rcases hl : env.lines with _ | ⟨⟨l, b⟩, rest⟩
    · simp [Run.written, requestText]
    · cases print <;>
        simp [written_finish, httpsPrintLoop_no_write, printlnEvent, requestText]

/-- C3 at host `example.com` and path `/x`: both connectors write
`GET /x HTTP/1.1\r\nHost: example.com\r\nConnection: close\r\n\r\n`. -/
theorem request_bytes_witness :
    (httpRequest okExchange (B "example.com") (B "/x") true).written
        = [B "GET /x HTTP/1.1\r\nHost: example.com\r\nConnection: close\r\n\r\n"]
    ∧ (httpsRequest okExchange (B "example.com") (B "/x") true).written
        = [B "GET /x HTTP/1.1\r\nHost: example.com\r\nConnection: close\r\n\r\n"] :=
  have h := request_bytes okExchange (B "example.com") (B "/x") true rfl
  ⟨h.1.trans (by decide), (h.2 rfl rfl).trans (by decide)⟩

theorem finish_result (env : Exchange) (pre : List Event) (l : Bytes) (t : Int) :
    (finish env pre l t).result = match slice l 9 12 with
      | .ok s => .ret ⟨env.elapsed, t, s⟩
      | .error f => .panic f := by
  unfold finish
  cases slice l 9 12 <;> rfl

theorem httpRequest_result (env : Exchange) (host path : Bytes) (print : Bool)
    (l : Bytes) (b : Nat) (rest : List (Bytes × Nat))
    (hdial : env.dialErr = none) (hlines : env.lines = (l, b) :: rest) :
    ∃ t, (httpRequest env host path print).result = match slice l 9 12 with
      | .ok s => .ret ⟨env.elapsed, t, s⟩
      | .error f => .panic f := by
  unfold httpRequest
  rw [hdial, hlines]
  cases print
  · exact ⟨_, finish_result _ _ _ _⟩
  · exact ⟨_, finish_result _ _ _ _⟩

theorem httpsRequest_result (env : Exchange) (host path : Bytes) (print : Bool)
    (l : Bytes) (b : Nat) (rest : List (Bytes × Nat))
    (hpem : env.pemOk = true) (hpool : env.systemPool = true)
    (hdial : env.dialErr = none) (hlines : env.lines = (l, b) :: rest) :
    ∃ t, (httpsRequest env host path print).result = match slice l 9 12 with
      | .ok s => .ret ⟨env.elapsed, t, s⟩
      | .error f => .panic f := by
  unfold httpsRequest
  rw [hdial, hlines, hpem, hpool]
  cases print
  · exact ⟨_, finish_result _ _ _ _⟩
  · exact ⟨_, finish_result _ _ _ _⟩

/-- C4: when the first response line has at least 12 bytes, the status code
that `httpRequest` and `httpsRequest` return is exactly the three bytes at
offsets 9, 10 and 11 of that line; when it has fewer than 12 bytes, no status
code is returned: `statusLine[9:12]` panics with slice bounds out of range. -/
theorem status_extraction (env : Exchange) (host path : Bytes) (print : Bool)
    (statusLine : Bytes) (buffered : Nat) (rest : List (Bytes × Nat))
    (hdial : env.dialErr = none) (hlines : env.lines = (statusLine, buffered) :: rest) :
    (∀ h : 12 ≤ statusLine.length,
      (∃ t, (httpRequest env host path print).result
          = .ret ⟨env.elapsed, t, [statusLine[9], statusLine[10], statusLine[11]]⟩)
      ∧ (env.pemOk = true → env.systemPool = true →
        ∃ t, (httpsRequest env host path print).result
          = .ret ⟨env.elapsed, t, [statusLine[9], statusLine[10], statusLine[11]]⟩))
    ∧ (statusLine.length < 12 →
      (httpRequest env host path print).result = .panic (.sliceBounds 9 12 statusLine.length)
      ∧ (env.pemOk = true → env.systemPool = true →
        (httpsRequest env host path print).result
          = .panic (.sliceBounds 9 12 statusLine.length))) := by
  constructor
  · intro h
    obtain ⟨a, b, c, ha, hb, hc, hs⟩ := slice_9_12 statusLine h
    have e9 : statusLine[9] = a := by
      rw [List.getElem?_eq_getElem (by omega)] at ha; exact Option.some.inj ha
    have e10 : statusLine[10] = b := by
      rw [List.getElem?_eq_getElem (by omega)] at hb; exact Option.some.inj hb
    have e11 : statusLine[11] = c := by
      rw [List.getElem?_eq_getElem (by omega)] at hc; exact Option.some.inj hc
    rw [e9, e10, e11]
    constructor
    · obtain ⟨t, ht⟩ := httpRequest_result env host path print statusLine buffered rest hdial hlines
      rw [hs] at ht
      exact ⟨t, ht⟩
    · intro hpem hpool
      obtain ⟨t, ht⟩ := httpsRequest_result env host path print statusLine buffered rest
        hpem hpool hdial hlines
      rw [hs] at ht
      exact ⟨t, ht⟩
  · intro h
    have hs := slice_short statusLine h
    constructor
    · obtain ⟨t, ht⟩ := httpRequest_result env host path print statusLine buffered rest hdial hlines
      rw [hs] at ht
      exact ht
    · intro hpem hpool
      obtain ⟨t, ht⟩ := httpsRequest_result env host path print statusLine buffered rest
        hpem hpool hdial hlines
      rw [hs] at ht
      exact ht

/-- C4 on two responses: the first line `HTTP/1.1 200 OK` yields the status
code `200` from both connectors, and the 8-byte first line `HTTP/1.1` makes
both panic with slice bounds out of range. -/
theorem status_extraction_witness :
    ((∃ t, (httpRequest okExchange (B "example.com") (B "/") false).result
          = .ret ⟨okExchange.elapsed, t, B "200"⟩)
      ∧ (∃ t, (httpsRequest okExchange (B "example.com") (B "/") false).result
          = .ret ⟨okExchange.elapsed, t, B "200"⟩))
    ∧ (httpRequest shortExchange (B "example.com") (B "/") false).result
          = .panic (.sliceBounds 9 12 8)
    ∧ (httpsRequest shortExchange (B "example.com") (B "/") false).result
          = .panic (.sliceBounds 9 12 8) :=
  have h1 := (status_extraction okExchange (B "example.com") (B "/") false
    (B "HTTP/1.1 200 OK") 10 [] rfl rfl).1 (by decide)
  have h2 := (status_extraction shortExchange (B "example.com") (B "/") false
    (B "HTTP/1.1") 10 [] rfl rfl).2 (by decide)
  ⟨⟨h1.1, h1.2 rfl rfl⟩, h2.1, h2.2 rfl rfl⟩

/-! ### Byte totals of the four read loops -/

theorem wrap64_range (x : Int) : -9223372036854775808 ≤ wrap64 x ∧ wrap64 x ≤ maxInt64 := by
  unfold wrap64 maxInt64
  omega

theorem wrap64_id (x : Int) (h1 : -9223372036854775808 ≤ x) (h2 : x ≤ 9223372036854775807) :
    wrap64 x = x := by
  unfold wrap64
  omega

theorem httpsQuietLoop_total (rest : List (Bytes × Nat)) (t : Int) :
    httpsQuietLoop rest t = httpQuietLoop rest t := by
  induction rest generalizing t with
  | nil => rfl
  | cons x rest ih =>
    obtain ⟨l, b⟩ := x
    simp only [httpsQuietLoop, httpQuietLoop]
    exact ih _

theorem httpsPrintLoop_total (rest : List (Bytes × Nat)) (t : Int) :
    (httpsPrintLoop rest t).2 = addInt (httpQuietLoop rest t) 0 := by
  induction rest generalizing t with
  | nil => rfl
  | cons x rest ih =>
    obtain ⟨l, b⟩ := x
    simp only [httpsPrintLoop, httpQuietLoop]
    exact ih _

theorem calls_finish (env : Exchange) (pre : List Event) (l : Bytes) (t : Int) :
    (finish env pre l t).calls = pre.filter fun e => match e with
      | .call _ _ _ _ => true
      | _ => false := by
  unfold finish Run.calls
  cases slice l 9 12 <;> simp

theorem httpsPrintLoop_no_call (rest : List (Bytes × Nat)) (t : Int) :
    (httpsPrintLoop rest t).1.filter (fun e => match e with
      | .call _ _ _ _ => true
      | _ => false) = [] := by
  induction rest generalizing t with
  | nil => simp [httpsPrintLoop]
  | cons x rest ih => simp [httpsPrintLoop, printlnEvent, ih]

theorem httpPrintLoop_no_call (rest : List (Bytes × Nat)) (t : Int) :
    (httpPrintLoop rest t).1.filter (fun e => match e with
      | .call _ _ _ _ => true
      | _ => false) = [] := by
  induction rest generalizing t with
  | nil => simp [httpPrintLoop]
  | cons x rest ih => simp [httpPrintLoop, printlnEvent, ih]

/-- A run of `httpsRequest` holds exactly one connector entry, its own. -/
theorem httpsRequest_calls (env : Exchange) (host path : Bytes) (print : Bool) :
    (httpsRequest env host path print).calls = [.call .secure host path print] := by
  unfold httpsRequest
  cases env.pemOk
  · simp [Run.calls]
  cases env.systemPool
  · simp [Run.calls]
  rcases env.dialErr with _ | err
  · rcases env.lines with _ | ⟨⟨l, b⟩, rest⟩
    · simp [Run.calls]
    · cases print <;> simp [calls_finish, httpsPrintLoop_no_call, printlnEvent]
  · simp [Run.calls]

/-- A run of `httpRequest` holds exactly one connector entry, its own. -/
theorem httpRequest_calls (env : Exchange) (host path : Bytes) (print : Bool) :
    (httpRequest env host path print).calls = [.call .plain host path print] := by
  unfold httpRequest
  rcases env.dialErr with _ | err
  · rcases env.lines with _ | ⟨⟨l, b⟩, rest⟩
    · simp [Run.calls]
    · cases print <;> simp [calls_finish, httpPrintLoop_no_call, printlnEvent]
  · simp [Run.calls]

/-- The connector entries of `getReq` on an address that `url.Parse` accepts. -/
theorem getReq_calls (env : Exchange) (address : Bytes) (u : URL)
    (hp : Parse address = .ok u) :
    (getReq env address).calls =
      if contains address (B "https://") then
        [.call .secure u.Host (if u.Path = [] then B "/" else u.Path) true]
      else if contains address (B "http://") then
        [.call .plain u.Host (if u.Path = [] then B "/" else u.Path) true]
      else [] := by
  unfold getReq
  rw [hp]
  by_cases h1 : contains address (B "https://") = true
  · simp only [h1, if_true]
    exact httpsRequest_calls env _ _ true
  · by_cases h2 : contains address (B "http://") = true
    · simp only [h1, h2, if_true]
      exact httpRequest_calls env _ _ true
    · simp only [h1, h2]
      simp [Run.calls, printlnEvent]

/-- C1 (amended): on every address that `url.Parse` accepts, `getReq` invokes
`httpsRequest` exactly once, with printing enabled, when the address contains
`https://`; otherwise `httpRequest` exactly once, with printing enabled, when
it contains `http://`; otherwise it invokes no connector, prints the
diagnostic and returns normally. On every address that `url.Parse` rejects,
`getReq` panics with the parse error: no connector, no diagnostic. -/
theorem getReq_dispatch (env : Exchange) (address : Bytes) :
    (∀ u, Parse address = .ok u →
      (contains address (B "https://") = true →
        (getReq env address).calls
          = [.call .secure u.Host (if u.Path = [] then B "/" else u.Path) true])
      ∧ (contains address (B "https://") = false → contains address (B "http://") = true →
        (getReq env address).calls
          = [.call .plain u.Host (if u.Path = [] then B "/" else u.Path) true])
      ∧ (contains address (B "https://") = false → contains address (B "http://") = false →
        getReq env address
          = ⟨[.stderr (B "Please include http or https in the URL.\n")], .ret ()⟩))
    ∧ (∀ e, Parse address = .error e →
        getReq env address = ⟨[], .panic (.urlParse e)⟩) := by
  constructor
  · intro u hp
    have hc := getReq_calls env address u hp
    refine ⟨fun h1 => ?_, fun h1 h2 => ?_, fun h1 h2 => ?_⟩
    · rw [hc, h1]; rfl
    · rw [hc, h1, h2]; rfl
    · unfold getReq
      rw [hp]
      simp only [h1, h2]
      simp only [Bool.false_eq_true, if_false, printlnEvent]
      rfl
  · intro e hp
    unfold getReq
    rw [hp]

/-- C1 (amended) on four addresses: `https://example.com/x` goes to
`httpsRequest` and `http://example.com` to `httpRequest`, once each and with
printing; `example.com/x` gets the diagnostic; `example.com/%zz` panics. -/
theorem getReq_dispatch_witness :
    (getReq okExchange (B "https://example.com/x")).calls
        = [.call .secure (B "example.com") (B "/x") true]
    ∧ (getReq okExchange (B "http://example.com")).calls
        = [.call .plain (B "example.com") (B "/") true]
    ∧ getReq okExchange (B "example.com/x")
        = ⟨[.stderr (B "Please include http or https in the URL.\n")], .ret ()⟩
    ∧ getReq okExchange (B "example.com/%zz")
        = ⟨[], .panic (.urlParse (.escape (B "%zz")))⟩ :=
  ⟨((getReq_dispatch okExchange (B "https://example.com/x")).1
      { Scheme := B "https", Host := B "example.com", Path := B "/x" } (by decide)).1 (by decide),
    ((getReq_dispatch okExchange (B "http://example.com")).1
      { Scheme := B "http", Host := B "example.com" } (by decide)).2.1 (by decide) (by decide),
    ((getReq_dispatch okExchange (B "example.com/x")).1
      { Path := B "example.com/x" } (by decide)).2.2 (by decide) (by decide),
    (getReq_dispatch okExchange (B "example.com/%zz")).2 _ (by decide)⟩

/-- C1 as stated fails on addresses that `url.Parse` rejects.
`https://example.com/%zz` contains `https://`, `http://example.com/%zz`
contains `http://` and not `https://`, and `example.com/%zz` contains neither:
on all three `getReq` panics, invoking no connector and printing nothing. -/
theorem getReq_dispatch_counterexample :
    (contains (B "https://example.com/%zz") (B "https://") = true
      ∧ getReq okExchange (B "https://example.com/%zz")
          = ⟨[], .panic (.urlParse (.escape (B "%zz")))⟩)
    ∧ (contains (B "http://example.com/%zz") (B "https://") = false
      ∧ contains (B "http://example.com/%zz") (B "http://") = true
      ∧ getReq okExchange (B "http://example.com/%zz")
          = ⟨[], .panic (.urlParse (.escape (B "%zz")))⟩)
    ∧ (contains (B "example.com/%zz") (B "https://") = false
      ∧ contains (B "example.com/%zz") (B "http://") = false
      ∧ getReq okExchange (B "example.com/%zz")
          = ⟨[], .panic (.urlParse (.escape (B "%zz")))⟩) := by
  decide

theorem unescapeCheck_cons (c : UInt8) (rest : Bytes) (hc : (c == 0x25) = false) :
    unescapeCheck .encodePath (c :: rest) = unescapeCheck .encodePath rest := by
  conv_lhs => unfold unescapeCheck
  simp [hc]

theorem unescapeCheck_percent (h l : UInt8) (q : Bytes)
    (hh : ishex h = true) (hl : ishex l = true) :
    unescapeCheck .encodePath (0x25 :: h :: l :: q) = unescapeCheck .encodePath q := by
  conv_lhs => unfold unescapeCheck
  simp [hh, hl]

theorem unescapeDecode_cons (c : UInt8) (rest : Bytes) (hc : (c == 0x25) = false) :
    unescapeDecode (c :: rest) = c :: unescapeDecode rest := by
  conv_lhs => unfold unescapeDecode
  simp [hc]

theorem unescapeDecode_percent (h l : UInt8) (q : Bytes) :
    unescapeDecode (0x25 :: h :: l :: q) = (unhex h <<< 4 ||| unhex l) :: unescapeDecode q := by
  conv_lhs => unfold unescapeDecode
  simp

theorem not_percent_of_not_mem (c : UInt8) (rest : Bytes) (h : (0x25 : UInt8) ∉ c :: rest) :
    (c == 0x25) = false ∧ (0x25 : UInt8) ∉ rest := by
  simp only [List.mem_cons, not_or] at h
  exact ⟨by simpa using fun e => h.1 e.symm, h.2⟩

theorem unescapeCheck_path (p : Bytes) (h : (0x25 : UInt8) ∉ p) :
    unescapeCheck .encodePath p = .ok () := by
  induction p with
  | nil => rfl
  | cons c rest ih =>
    obtain ⟨hc, hr⟩ := not_percent_of_not_mem c rest h
    rw [unescapeCheck_cons c rest hc, ih hr]

theorem unescapeDecode_plain (p : Bytes) (h : (0x25 : UInt8) ∉ p) :
    unescapeDecode p = p := by
  induction p with
  | nil => rfl
  | cons c rest ih =>
    obtain ⟨hc, hr⟩ := not_percent_of_not_mem c rest h
    rw [unescapeDecode_cons c rest hc, ih hr]

theorem setPath_plain (v : URL) (p : Bytes) (h : (0x25 : UInt8) ∉ p) :
    setPath v p = .ok { v with Path := p } := by
  unfold setPath unescape
  rw [unescapeCheck_path p h, unescapeDecode_plain p h]

theorem unescapeCheck_escape (p q : Bytes) (h l : UInt8) (hp : (0x25 : UInt8) ∉ p)
    (hh : ishex h = true) (hl : ishex l = true) :
    unescapeCheck .encodePath (p ++ 0x25 :: h :: l :: q) = unescapeCheck .encodePath q := by
  induction p with
  | nil => exact unescapeCheck_percent h l q hh hl
  | cons c rest ih =>
    obtain ⟨hc, hr⟩ := not_percent_of_not_mem c rest hp
    rw [List.cons_append, unescapeCheck_cons c _ hc, ih hr]

theorem unescapeDecode_escape (p q : Bytes) (h l : UInt8) (hp : (0x25 : UInt8) ∉ p) :
    unescapeDecode (p ++ 0x25 :: h :: l :: q)
      = p ++ (unhex h <<< 4 ||| unhex l) :: unescapeDecode q := by
  induction p with
  | nil => exact unescapeDecode_percent h l q
  | cons c rest ih =>
    obtain ⟨hc, hr⟩ := not_percent_of_not_mem c rest hp
    rw [List.cons_append, unescapeDecode_cons c _ hc, ih hr, List.cons_append]

theorem setPath_escape (v : URL) (p q : Bytes) (h l : UInt8) (hp : (0x25 : UInt8) ∉ p)
    (hh : ishex h = true) (hl : ishex l = true) :
    setPath v (p ++ 0x25 :: h :: l :: q) = match setPath v q with
      | .ok w => .ok { v with Path := p ++ (unhex h <<< 4 ||| unhex l) :: w.Path }
      | .error e => .error e := by
  unfold setPath unescape
  rw [unescapeCheck_escape p q h l hp hh hl, unescapeDecode_escape p q h l hp]
  cases unescapeCheck .encodePath q <;> rfl


/-! ### The path text of an address -/

theorem index_byte_cons (x c : UInt8) (s : Bytes) :
    index (x :: s) [c] = if c = x then some 0 else (index s [c]).map (· + 1) := by
  conv_lhs => unfold index
  by_cases h : c = x
  · simp [hasPrefix, List.isPrefixOf, h]
  · simp [hasPrefix, List.isPrefixOf, h]

/-- At the offset that `strings.IndexByte` returns stands the byte looked for. -/
theorem index_byte_drop (s : Bytes) (c : UInt8) (i : Nat) (h : index s [c] = some i) :
    ∃ t, s.drop i = c :: t := by
  induction s generalizing i with
  | nil => simp [index] at h
  | cons x s ih =>
    rw [index_byte_cons] at h
    by_cases e : c = x
    · rw [if_pos e] at h
      obtain rfl := Option.some.inj h
      exact ⟨s, by rw [e]; rfl⟩
    · rw [if_neg e] at h
      rcases hj : index s [c] with _ | j
      · rw [hj] at h
        cases h
      · rw [hj] at h
        obtain rfl := Option.some.inj h
        exact ih j hj

/-- The first part of `split(s, sep, true)` is followed in `s` by nothing or
by the separator. -/
theorem split_fst (s : Bytes) (c : UInt8) :
    ∃ tail, s = (split s c true).1 ++ tail ∧ (tail = [] ∨ tail.head? = some c) := by
  unfold split indexByte
  rcases h : index s [c] with _ | i
  · exact ⟨[], by simp, Or.inl rfl⟩
  · obtain ⟨t, ht⟩ := index_byte_drop s c i h
    refine ⟨s.drop i, ?_, Or.inr ?_⟩
    · simp
    · rw [ht]
      rfl

/-- The second part of `split(s, sep, false)` ends `s`. -/
theorem split_snd (s : Bytes) (c : UInt8) :
    ∃ head, s = head ++ (split s c false).2 := by
  unfold split indexByte
  rcases index s [c] with _ | i
  · exact ⟨s, by simp⟩
  · exact ⟨s.take i, by simp⟩

theorem getSchemeFrom_rest (rawurl : Bytes) (rem seen scheme rest : Bytes)
    (hinv : seen ++ rem = rawurl)
    (h : getSchemeFrom rawurl seen rem = .ok (scheme, rest)) :
    ∃ sp, rawurl = sp ++ rest := by
  induction rem generalizing seen with
  | nil =>
    simp only [getSchemeFrom] at h
    injection h with h
    injection h with h1 h2
    exact ⟨[], by rw [← h2]; rfl⟩
  | cons c rem ih =>
    have hinv' : (seen ++ [c]) ++ rem = rawurl := by
      rw [← hinv]
      simp
    simp only [getSchemeFrom] at h
    split at h
    · exact ih _ hinv' h
    · split at h
      · split at h
        · injection h with h
          injection h with h1 h2
          exact ⟨[], by rw [← h2]; rfl⟩
        · exact ih _ hinv' h
      · split at h
        · split at h
          · cases h
          · injection h with h
            injection h with h1 h2
            exact ⟨seen ++ [c], by rw [← h2]; exact hinv'.symm⟩
        · injection h with h
          injection h with h1 h2
          exact ⟨[], by rw [← h2]; rfl⟩

/-- What `getScheme` returns as the rest ends the URL. -/
theorem getScheme_rest (s scheme rest : Bytes) (h : getScheme s = .ok (scheme, rest)) :
    ∃ sp, s = sp ++ rest :=
  getSchemeFrom_rest s s [] scheme rest rfl h

theorem question_mark_tail (rest0 : Bytes) (h : hasSuffix rest0 (B "?") = true) :
    ∃ tail, rest0 = rest0.take (rest0.length - 1) ++ tail ∧ tail.head? = some 0x3f := by
  refine ⟨rest0.drop (rest0.length - 1), (List.take_append_drop _ _).symm, ?_⟩
  have hs : B "?" <:+ rest0 := List.isSuffixOf_iff_suffix.mp h
  have hd := List.suffix_iff_eq_drop.mp hs
  rw [show (B "?").length = 1 from rfl] at hd
  rw [← hd]
  rfl

/-- The path text is a piece of the URL, followed by nothing or by the query. -/
theorem pathCore_appears (s : Bytes) :
    ∃ before after, s = before ++ pathCore s ++ after
      ∧ (after = [] ∨ after.head? = some 0x3f) := by
  unfold pathCore
  split
  · rename_i hstar
    exact ⟨[], [], by simp [hstar], Or.inl rfl⟩
  · split
    · exact ⟨s, [], by simp, Or.inl rfl⟩
    · rename_i scheme rest0 hsch
      obtain ⟨sp, hsp⟩ := getScheme_rest s scheme rest0 hsch
      have hq : ∃ tail, rest0 =
          (if hasSuffix rest0 (B "?") && countByte rest0 0x3f == 1 then
            rest0.take (rest0.length - 1)
          else (split rest0 0x3f true).1) ++ tail
          ∧ (tail = [] ∨ tail.head? = some 0x3f) := by
        split
        · rename_i hc
          simp only [Bool.and_eq_true] at hc
          obtain ⟨tail, h1, h2⟩ := question_mark_tail rest0 hc.1
          exact ⟨tail, h1, Or.inr h2⟩
        · exact split_fst rest0 0x3f
      obtain ⟨qtail, hrest, hqtail⟩ := hq
      generalize (if hasSuffix rest0 (B "?") && countByte rest0 0x3f == 1 then
            rest0.take (rest0.length - 1)
          else (split rest0 0x3f true).1) = rest at hrest ⊢
      simp only
      split
      · exact ⟨s, [], by simp, Or.inl rfl⟩
      · split
        · obtain ⟨hd, hhd⟩ := split_snd (rest.drop 2) 0x2f
          refine ⟨sp ++ rest.take 2 ++ hd, qtail, ?_, hqtail⟩
          rw [hsp, hrest]
          conv_lhs => rw [← List.take_append_drop 2 rest, hhd]
          simp only [List.append_assoc]
        · exact ⟨sp, qtail, by rw [hsp, hrest]; simp only [List.append_assoc], hqtail⟩

/-- The path text of an address is a piece of the address, followed in it by
nothing, by the query (`?`) or by the fragment (`#`). -/
theorem pathText_appears (address : Bytes) :
    ∃ before after, address = before ++ pathText address ++ after
      ∧ (after = [] ∨ after.head? = some 0x3f ∨ after.head? = some 0x23) := by
  unfold pathText
  obtain ⟨ftail, hf, hftail⟩ := split_fst address 0x23
  obtain ⟨before, after, hs, hafter⟩ := pathCore_appears (split address 0x23 true).1
  refine ⟨before, after ++ ftail, ?_, ?_⟩
  · conv_lhs => rw [hf, hs]
    simp only [List.append_assoc]
  · rcases hafter with e | e
    · rw [e]
      rcases hftail with e' | e'
      · exact Or.inl (by rw [e']; rfl)
      · exact Or.inr (Or.inr (by simpa using e'))
    · refine Or.inr (Or.inl ?_)
      rcases after with _ | ⟨a, after⟩
      · cases e
      · exact e

theorem unescape_path_star : unescape (B "*") .encodePath = .ok (B "*") := by decide

theorem unescape_path_nil : unescape [] .encodePath = .ok [] := rfl

theorem setPath_path (v u : URL) (p : Bytes) (h : setPath v p = .ok u) :
    unescape p .encodePath = .ok u.Path := by
  unfold setPath at h
  rcases hu : unescape p .encodePath with e | path
  · rw [hu] at h
    cases h
  · rw [hu] at h
    injection h with h
    rw [← h]

/-- The last steps of `parse`, on the URL so far and the text that is left
after the scheme and the query: the path it sets is the decoded path text. -/
theorem parse_tail (url : URL) (rest : Bytes) (u : URL) (hpath : url.Path = [])
    (h : (if !hasPrefix rest (B "/") && url.Scheme ≠ [] then
        (Except.ok { url with Opaque := rest } : Except UrlError URL)
      else if !hasPrefix rest (B "/") &&
          (match index rest (B ":"), index rest (B "/") with
            | some colon, some slash => decide (colon < slash)
            | some _, none => true
            | none, _ => false) then
        .error .colonInFirstSegment
      else if (url.Scheme ≠ [] || !hasPrefix rest (B "///")) && hasPrefix rest (B "//") then
        match parseAuthority (split (rest.drop 2) 0x2f false).1 with
        | .error e => .error e
        | .ok host => setPath { url with Host := host } (split (rest.drop 2) 0x2f false).2
      else setPath url rest) = .ok u) :
    unescape (if !hasPrefix rest (B "/") && url.Scheme ≠ [] then []
      else if (url.Scheme ≠ [] || !hasPrefix rest (B "///")) && hasPrefix rest (B "//") then
        (split (rest.drop 2) 0x2f false).2
      else rest) .encodePath = .ok u.Path := by
  by_cases hop : (!hasPrefix rest (B "/") && decide (url.Scheme ≠ [])) = true
  · rw [if_pos hop] at h ⊢
    injection h with h
    rw [← h]
    show _ = Except.ok url.Path
    rw [hpath]
    rfl
  · rw [if_neg hop] at h ⊢
    by_cases hcol : (!hasPrefix rest (B "/") &&
          (match index rest (B ":"), index rest (B "/") with
            | some colon, some slash => decide (colon < slash)
            | some _, none => true
            | none, _ => false)) = true
    · rw [if_pos hcol] at h
      cases h
    · rw [if_neg hcol] at h
      by_cases hauth : ((decide (url.Scheme ≠ []) || !hasPrefix rest (B "///"))
          && hasPrefix rest (B "//")) = true
      · rw [if_pos hauth] at h ⊢
        rcases ha : parseAuthority (split (rest.drop 2) 0x2f false).1 with e | host
        · rw [ha] at h
          cases h
        · rw [ha] at h
          exact setPath_path _ _ _ h
      · rw [if_neg hauth] at h ⊢
        exact setPath_path _ _ _ h

/-- The path that `parse` returns is the percent-decoded path text. -/
theorem parse_path (s : Bytes) (u : URL) (h : parse s = .ok u) :
    unescape (pathCore s) .encodePath = .ok u.Path := by
  unfold parse at h
  unfold pathCore
  by_cases hctl : stringContainsCTLByte s = true
  · rw [if_pos hctl] at h
    cases h
  · rw [if_neg hctl] at h
    by_cases hstar : s = B "*"
    · rw [if_pos hstar] at h ⊢
      injection h with h
      rw [← h]
      exact unescape_path_star
    · rw [if_neg hstar] at h ⊢
      rcases hsch : getScheme s with e | ⟨scheme, rest0⟩
      · rw [hsch] at h
        cases h
      · rw [hsch] at h
        by_cases hq : (hasSuffix rest0 (B "?") && countByte rest0 0x3f == 1) = true
        · simp only [hq, if_true] at h ⊢
          exact parse_tail { Scheme := toLower scheme, ForceQuery := true }
            (rest0.take (rest0.length - 1)) u rfl h
        · simp only [hq] at h ⊢
          exact parse_tail { Scheme := toLower scheme, RawQuery := (split rest0 0x3f true).2 }
            (split rest0 0x3f true).1 u rfl h

/-- The path that `url.Parse` returns is the percent-decoded path text of the
address. -/
theorem Parse_path (address : Bytes) (u : URL) (h : Parse address = .ok u) :
    unescape (pathText address) .encodePath = .ok u.Path := by
  unfold Parse at h
  unfold pathText
  rcases hp : parse (split address 0x23 true).1 with e | url
  · simp only [hp] at h
    cases h
  · simp only [hp] at h
    have hpath := parse_path _ url hp
    by_cases hf : (split address 0x23 true).2 = []
    · rw [if_pos hf] at h
      injection h with h
      rw [← h]
      exact hpath
    · rw [if_neg hf] at h
      unfold setFragment at h
      rcases hu : unescape (split address 0x23 true).2 .encodeFragment with e | frag
      · rw [hu] at h
        cases h
      · rw [hu] at h
        injection h with h
        rw [← h]
        exact hpath

theorem index_byte_none (s : Bytes) (c : UInt8) (h : index s [c] = none) : c ∉ s := by
  induction s with
  | nil => simp
  | cons x s ih =>
    rw [index_byte_cons] at h
    by_cases e : c = x
    · rw [if_pos e] at h
      cases h
    · rw [if_neg e] at h
      rcases hj : index s [c] with _ | j
      · intro hm
        rcases List.mem_cons.mp hm with e' | hm'
        · exact e e'
        · exact ih hj hm'
      · rw [hj] at h
        cases h

theorem index_byte_take (s : Bytes) (c : UInt8) (i : Nat) (h : index s [c] = some i) :
    c ∉ s.take i := by
  induction s generalizing i with
  | nil => simp
  | cons x s ih =>
    rw [index_byte_cons] at h
    by_cases e : c = x
    · rw [if_pos e] at h
      obtain rfl := Option.some.inj h
      simp
    · rw [if_neg e] at h
      rcases hj : index s [c] with _ | j
      · rw [hj] at h
        cases h
      · rw [hj] at h
        obtain rfl := Option.some.inj h
        intro hm
        rw [List.take_succ_cons] at hm
        rcases List.mem_cons.mp hm with e' | hm'
        · exact e e'
        · exact ih j hj hm'

/-- The first part of `split(s, sep, true)` does not hold the separator. -/
theorem split_fst_not_mem (s : Bytes) (c : UInt8) : c ∉ (split s c true).1 := by
  unfold split indexByte
  rcases h : index s [c] with _ | i
  · exact index_byte_none s c h
  · exact index_byte_take s c i h

theorem split_snd_subset (s : Bytes) (c x : UInt8) (h : x ∈ (split s c false).2) : x ∈ s := by
  obtain ⟨hd, hhd⟩ := split_snd s c
  rw [hhd]
  exact List.mem_append_right _ h

theorem lone_question_mark (rest0 : Bytes) (h1 : hasSuffix rest0 (B "?") = true)
    (h2 : countByte rest0 0x3f = 1) : (0x3f : UInt8) ∉ rest0.take (rest0.length - 1) := by
  have hs : B "?" <:+ rest0 := List.isSuffixOf_iff_suffix.mp h1
  have hd := List.suffix_iff_eq_drop.mp hs
  rw [show (B "?").length = 1 from rfl] at hd
  have hsplit : rest0 = rest0.take (rest0.length - 1) ++ B "?" := by
    conv_lhs => rw [← List.take_append_drop (rest0.length - 1) rest0, ← hd]
  unfold countByte at h2
  rw [hsplit, List.count_append] at h2
  have h3 : List.count (0x3f : UInt8) (B "?") = 1 := by decide
  rw [h3] at h2
  have h4 : List.count (0x3f : UInt8) (rest0.take (rest0.length - 1)) = 0 := by omega
  exact List.count_eq_zero.mp h4

/-- The path text holds no `?`. -/
theorem pathCore_no_query (s : Bytes) : (0x3f : UInt8) ∉ pathCore s := by
  unfold pathCore
  split
  · decide
  · split
    · simp
    · rename_i scheme rest0 hsch
      have hq : (0x3f : UInt8) ∉
          (if hasSuffix rest0 (B "?") && countByte rest0 0x3f == 1 then
            rest0.take (rest0.length - 1)
          else (split rest0 0x3f true).1) := by
        split
        · rename_i hc
          simp only [Bool.and_eq_true, beq_iff_eq] at hc
          exact lone_question_mark rest0 hc.1 hc.2
        · exact split_fst_not_mem rest0 0x3f
      generalize (if hasSuffix rest0 (B "?") && countByte rest0 0x3f == 1 then
            rest0.take (rest0.length - 1)
          else (split rest0 0x3f true).1) = rest at hq ⊢
      simp only
      split
      · simp
      · split
        · intro hm
          exact hq (List.mem_of_mem_drop (split_snd_subset _ _ _ hm))
        · exact hq

/-- The path text of an address holds neither `?` nor `#`: it ends where the
query or the fragment begins. -/
theorem pathText_no_delimiter (address : Bytes) :
    (0x3f : UInt8) ∉ pathText address ∧ (0x23 : UInt8) ∉ pathText address := by
  unfold pathText
  refine ⟨pathCore_no_query _, ?_⟩
  intro hm
  obtain ⟨before, after, hs, -⟩ := pathCore_appears (split address 0x23 true).1
  have hin : (0x23 : UInt8) ∈ (split address 0x23 true).1 := by
    rw [hs]
    exact List.mem_append_left _ (List.mem_append_right _ hm)
  exact split_fst_not_mem address 0x23 hin

theorem unescapeDecode_nil (mode : Encoding) (p : Bytes) (hc : unescapeCheck mode p = .ok ())
    (hd : unescapeDecode p = []) : p = [] := by
  rcases p with _ | ⟨c, rest⟩
  · rfl
  · exfalso
    unfold unescapeDecode at hd
    unfold unescapeCheck at hc
    by_cases e : (c == 0x25) = true
    · rw [if_pos e] at hd hc
      rcases rest with _ | ⟨h, _ | ⟨l, rest'⟩⟩
      · simp at hc
      · simp at hc
      · simp at hd
    · rw [if_neg e] at hd
      simp at hd

/-- C2 (amended): on every address that `url.Parse` accepts and that is
dispatched to a connector, the path passed is the path component of the
address after percent-decoding. The path component is the piece
`pathText address` of the address, which is followed in it by nothing, by the
query or by the fragment and holds neither `?` nor `#`. When it is empty the
path passed is `/`; otherwise the path passed is its decoding, which is
`u.Path`: a path component without `%` is passed byte for byte as it appears in
the address, and every escape `%XY` is passed as the one byte it denotes. -/
theorem getReq_path (env : Exchange) (address : Bytes) (u : URL)
    (hp : Parse address = .ok u)
    (hc : contains address (B "https://") = true ∨ contains address (B "http://") = true) :
    (∃ before after, address = before ++ pathText address ++ after
      ∧ (after = [] ∨ after.head? = some 0x3f ∨ after.head? = some 0x23))
    ∧ ((0x3f : UInt8) ∉ pathText address ∧ (0x23 : UInt8) ∉ pathText address)
    ∧ u.Path = unescapeDecode (pathText address)
    ∧ (pathText address = [] →
        ∃ c, (getReq env address).calls = [.call c u.Host (B "/") true])
    ∧ (pathText address ≠ [] →
        ∃ c, (getReq env address).calls
          = [.call c u.Host (unescapeDecode (pathText address)) true])
    ∧ ((0x25 : UInt8) ∉ pathText address →
        unescapeDecode (pathText address) = pathText address)
    ∧ (∀ (p q : Bytes) (h l : UInt8), (0x25 : UInt8) ∉ p →
        unescapeDecode (p ++ 0x25 :: h :: l :: q)
          = p ++ (unhex h <<< 4 ||| unhex l) :: unescapeDecode q) := by
  have hcalls := getReq_calls env address u hp
  have hdec := Parse_path address u hp
  unfold unescape at hdec
  rcases hchk : unescapeCheck .encodePath (pathText address) with e | ⟨⟩
  · rw [hchk] at hdec
    cases hdec
  rw [hchk] at hdec
  have hpath : u.Path = unescapeDecode (pathText address) := by
    injection hdec with hdec
    exact hdec.symm
  refine ⟨pathText_appears address, pathText_no_delimiter address, hpath,
    fun he => ?_, fun hne => ?_, unescapeDecode_plain _, unescapeDecode_escape⟩
  · have hu : u.Path = [] := by rw [hpath, he]; rfl
    by_cases h1 : contains address (B "https://") = true
    · exact ⟨.secure, by rw [hcalls, if_pos h1, if_pos hu]⟩
    · have h2 : contains address (B "http://") = true := hc.resolve_left h1
      exact ⟨.plain, by rw [hcalls, if_neg h1, if_pos h2, if_pos hu]⟩
  · have hu : u.Path ≠ [] := by
      intro e
      rw [hpath] at e
      exact hne (unescapeDecode_nil _ _ hchk e)
    by_cases h1 : contains address (B "https://") = true
    · exact ⟨.secure, by rw [hcalls, if_pos h1, if_neg hu, hpath]⟩
    · have h2 : contains address (B "http://") = true := hc.resolve_left h1
      exact ⟨.plain, by rw [hcalls, if_neg h1, if_pos h2, if_neg hu, hpath]⟩

/-- C2 (amended) on two addresses: `https://example.com?x=1` has the empty path
text and passes `/`; `http://example.com/a%20b/c?x=1#top` has the path text
`/a%20b/c` and passes `/a b/c`. -/
theorem getReq_path_witness :
    (pathText (B "https://example.com?x=1") = []
      ∧ ∃ c, (getReq okExchange (B "https://example.com?x=1")).calls
        = [.call c (B "example.com") (B "/") true])
    ∧ (pathText (B "http://example.com/a%20b/c?x=1#top") = B "/a%20b/c"
      ∧ ∃ c, (getReq okExchange (B "http://example.com/a%20b/c?x=1#top")).calls
        = [.call c (B "example.com") (B "/a b/c") true]) :=
  ⟨⟨by decide,
      (getReq_path okExchange (B "https://example.com?x=1")
        { Scheme := B "https", Host := B "example.com", RawQuery := B "x=1" } (by decide)
        (Or.inl (by decide))).2.2.2.1 (by decide)⟩,
    ⟨by decide,
      (getReq_path okExchange (B "http://example.com/a%20b/c?x=1#top")
        { Scheme := B "http", Host := B "example.com", Path := B "/a b/c", RawQuery := B "x=1",
          Fragment := B "top" } (by decide)
        (Or.inr (by decide))).2.2.2.2.1 (by decide)⟩⟩

/-- C2 as stated fails on `http://example.com/a%20b`: the path component
appears in the address as `/a%20b`, and the path passed to the connector is
`/a b`. -/
theorem getReq_path_counterexample :
    B "http://example.com/a%20b" = B "http://" ++ B "example.com" ++ B "/a%20b"
    ∧ pathText (B "http://example.com/a%20b") = B "/a%20b"
    ∧ (getReq okExchange (B "http://example.com/a%20b")).calls
        = [.call .plain (B "example.com") (B "/a b") true]
    ∧ B "/a b" ≠ B "/a%20b" := by
  decide

/-! ## Facts about `getProfile` -/

theorem record_eq_step (i : Nat) (m : Measurement) (a : Acc) (h : m.status ≠ []) :
    record i m a = .ok (step i m a) := by
  obtain ⟨el, tb, st⟩ := m
  rcases st with _ | ⟨c, st⟩
  · exact absurd rfl h
  · unfold record step failed
    by_cases h1 : a.fastestTime > el.Milliseconds <;>
    by_cases h2 : a.slowestTime < el.Milliseconds <;>
    by_cases h3 : a.smallestRes > tb <;>
    by_cases h4 : a.largestRes < tb <;>
    by_cases h5 : c = 0x32 <;>
    simp [h1, h2, h3, h4, h5]

theorem slice_length (l s : Bytes) (h : slice l 9 12 = .ok s) : s.length = 3 := by
  unfold slice at h
  split at h
  · rename_i hb
    injection h with h
    rw [← h, List.length_take, List.length_drop]
    omega
  · cases h

/-- A status code returned by `httpsRequest` has exactly three bytes. -/
theorem httpsRequest_status_length (env : Exchange) (host path : Bytes) (print : Bool)
    (m : Measurement) (h : (httpsRequest env host path print).result = .ret m) :
    m.status.length = 3 := by
  unfold httpsRequest at h
  cases hpem : env.pemOk
  · simp [hpem] at h
  cases hpool : env.systemPool
  · simp [hpem, hpool] at h
  rcases hd : env.dialErr with _ | err
  · rcases hl : env.lines with _ | ⟨⟨l, b⟩, rest⟩
    · simp [hpem, hpool, hd, hl] at h
    · simp only [hpem, hpool, hd, hl] at h
      have key : ∀ pre t, (finish env pre l t).result = .ret m → m.status.length = 3 := by
        intro pre t hf
        rw [finish_result] at hf
        cases hs : slice l 9 12 with
        | error f => rw [hs] at hf; cases hf
        | ok s =>
          rw [hs] at hf
          injection hf with hf
          rw [← hf]
          exact slice_length l s hs
      cases print
      · exact key _ _ (by simpa using h)
      · exact key _ _ (by simpa using h)
  · simp [hpem, hpool, hd] at h

theorem requestLoop_eq (world : Nat → Exchange) (ms : List Measurement) (i : Nat) (a : Acc)
    (hw : ∀ j m, ms[j]? = some m →
      (httpsRequest (world (i + j)) profileHost profilePath false).result = .ret m) :
    (requestLoop world ms.length i a).result = .ret (steps i ms a) := by
  induction ms generalizing i a with
  | nil => rfl
  | cons m ms ih =>
    have h0 := hw 0 m (by simp)
    have hlen := httpsRequest_status_length _ _ _ _ m h0
    have hne : m.status ≠ [] := by
      intro e
      rw [e] at hlen
      cases hlen
    simp only [List.length_cons, requestLoop, steps]
    rw [Nat.add_zero] at h0
    rw [h0]
    simp only [record_eq_step i m a hne]
    apply ih
    intro j m' hj
    have := hw (j + 1) m' (by simpa using hj)
    rw [show i + 1 + j = i + (j + 1) by omega]
    exact this

theorem tdiv_million (a : Int) :
    Int.tdiv a 1000000 = if 0 ≤ a then a / 1000000 else -((-a) / 1000000) := by
  split
  · rename_i h
    exact Int.tdiv_eq_ediv h (by decide)
  · rename_i h
    have h' : 0 ≤ -a := by omega
    have e : Int.tdiv a 1000000 = -(Int.tdiv (-a) 1000000) := by
      rw [Int.neg_tdiv, neg_neg]
    rw [e, Int.tdiv_eq_ediv h' (by decide)]

/-- The milliseconds of a `Duration` fit far inside `int64`. -/
theorem milliseconds_range (d : Duration) :
    -9223372036854 ≤ d.Milliseconds ∧ d.Milliseconds ≤ 9223372036854 := by
  obtain ⟨ns, hlo, hhi⟩ := d
  unfold Duration.Milliseconds
  simp only
  rw [tdiv_million]
  split <;> omega

theorem milliseconds_nonneg (d : Duration) (h : 0 ≤ d.ns) : 0 ≤ d.Milliseconds := by
  unfold Duration.Milliseconds
  rw [tdiv_million, if_pos h]
  omega

theorem httpQuietLoop_range (rest : List (Bytes × Nat)) (t : Int)
    (h : -9223372036854775808 ≤ t ∧ t ≤ maxInt64) :
    -9223372036854775808 ≤ httpQuietLoop rest t ∧ httpQuietLoop rest t ≤ maxInt64 := by
  induction rest generalizing t with
  | nil => exact h
  | cons x rest ih =>
    obtain ⟨l, b⟩ := x
    simp only [httpQuietLoop]
    exact ih _ (wrap64_range _)

/-- A byte total returned by `httpsRequest` is an `int`. -/
theorem httpsRequest_totalBytes_range (env : Exchange) (host path : Bytes) (print : Bool)
    (m : Measurement) (h : (httpsRequest env host path print).result = .ret m) :
    -9223372036854775808 ≤ m.totalBytes ∧ m.totalBytes ≤ maxInt64 := by
  unfold httpsRequest at h
  cases hpem : env.pemOk
  · simp [hpem] at h
  cases hpool : env.systemPool
  · simp [hpem, hpool] at h
  rcases hd : env.dialErr with _ | err
  · rcases hl : env.lines with _ | ⟨⟨l, b⟩, rest⟩
    · simp [hpem, hpool, hd, hl] at h
    · simp only [hpem, hpool, hd, hl] at h
      have key : ∀ pre t, (-9223372036854775808 ≤ t ∧ t ≤ maxInt64) →
          (finish env pre l t).result = .ret m →
          -9223372036854775808 ≤ m.totalBytes ∧ m.totalBytes ≤ maxInt64 := by
        intro pre t ht hf
        rw [finish_result] at hf
        cases hs : slice l 9 12 with
        | error f => rw [hs] at hf; cases hf
        | ok s =>
          rw [hs] at hf
          injection hf with hf
          rw [← hf]
          exact ht
      cases print
      · refine key _ _ ?_ (by simpa using h)
        rw [httpsQuietLoop_total]
        exact httpQuietLoop_range _ _ (wrap64_range _)
      · refine key _ _ ?_ (by simpa using h)
        rw [httpsPrintLoop_total]
        exact wrap64_range _
  · simp [hpem, hpool, hd] at h

/-! ### The accumulators after the loop -/

theorem steps_times_length (i : Nat) (ms : List Measurement) (a : Acc) :
    (steps i ms a).times.length = a.times.length := by
  induction ms generalizing i a with
  | nil => rfl
  | cons m ms ih =>
    simp only [steps]
    rw [ih]
    simp [step]

theorem steps_times_getElem? (i : Nat) (ms : List Measurement) (a : Acc) (k : Nat)
    (hk : k < a.times.length) :
    (steps i ms a).times[k]? =
      if i ≤ k ∧ k < i + ms.length then (ms[k - i]?).map (·.elapsed.Milliseconds)
      else a.times[k]? := by
  induction ms generalizing i a with
  | nil =>
    simp only [steps, List.length_nil, Nat.add_zero]
    rw [if_neg (by omega)]
  | cons m ms ih =>
    simp only [steps, List.length_cons]
    rw [ih (i + 1) (step i m a) (by simpa [step] using hk)]
    by_cases h1 : i + 1 ≤ k ∧ k < i + 1 + ms.length
    · rw [if_pos h1, if_pos (by omega)]
      obtain ⟨j, hj⟩ : ∃ j, k - i = j + 1 := ⟨k - i - 1, by omega⟩
      rw [hj, show k - (i + 1) = j by omega]
      simp
    · rw [if_neg h1]
      by_cases h2 : i = k
      · subst h2
        rw [if_pos (by omega)]
        simp [step, List.getElem?_set, hk]
      · rw [if_neg (by omega)]
        simp [step, List.getElem?_set, h2]

/-- After the loop the slice `times` holds the milliseconds of the requests,
in request order. -/
theorem steps_times (ms : List Measurement) :
    (steps 0 ms (Acc.init ms.length)).times = ms.map (·.elapsed.Milliseconds) := by
  apply List.ext_getElem?
  intro k
  by_cases hk : k < ms.length
  · rw [steps_times_getElem? 0 ms _ k (by simpa [Acc.init] using hk)]
    rw [if_pos (by omega)]
    simp
  · have h1 : (steps 0 ms (Acc.init ms.length)).times.length ≤ k := by
      rw [steps_times_length]
      simp [Acc.init]
      omega
    rw [List.getElem?_eq_none h1, List.getElem?_eq_none (by simpa using hk)]

theorem steps_fastest (i : Nat) (ms : List Measurement) (a : Acc) :
    (steps i ms a).fastestTime ≤ a.fastestTime
    ∧ (∀ m ∈ ms, (steps i ms a).fastestTime ≤ m.elapsed.Milliseconds)
    ∧ ((steps i ms a).fastestTime = a.fastestTime
      ∨ ∃ m ∈ ms, (steps i ms a).fastestTime = m.elapsed.Milliseconds) := by
  induction ms generalizing i a with
  | nil => simp [steps]
  | cons m ms ih =>
    obtain ⟨h1, h2, h3⟩ := ih (i + 1) (step i m a)
    have hs : (step i m a).fastestTime ≤ a.fastestTime
        ∧ (step i m a).fastestTime ≤ m.elapsed.Milliseconds
        ∧ ((step i m a).fastestTime = a.fastestTime
          ∨ (step i m a).fastestTime = m.elapsed.Milliseconds) := by
      simp only [step]
      split <;> omega
    simp only [steps]
    refine ⟨by omega, ?_, ?_⟩
    · intro m' hm'
      rcases List.mem_cons.mp hm' with e | hin
      · subst e; omega
      · exact h2 m' hin
    · rcases h3 with e | ⟨m', hin, e⟩
      · rcases hs.2.2 with e' | e'
        · left; omega
        · right; exact ⟨m, List.mem_cons_self _ _, by omega⟩
      · right; exact ⟨m', List.mem_cons_of_mem _ hin, e⟩

theorem steps_slowest (i : Nat) (ms : List Measurement) (a : Acc) :
    a.slowestTime ≤ (steps i ms a).slowestTime
    ∧ (∀ m ∈ ms, m.elapsed.Milliseconds ≤ (steps i ms a).slowestTime)
    ∧ ((steps i ms a).slowestTime = a.slowestTime
      ∨ ∃ m ∈ ms, (steps i ms a).slowestTime = m.elapsed.Milliseconds) := by
  induction ms generalizing i a with
  | nil => simp [steps]
  | cons m ms ih =>
    obtain ⟨h1, h2, h3⟩ := ih (i + 1) (step i m a)
    have hs : a.slowestTime ≤ (step i m a).slowestTime
        ∧ m.elapsed.Milliseconds ≤ (step i m a).slowestTime
        ∧ ((step i m a).slowestTime = a.slowestTime
          ∨ (step i m a).slowestTime = m.elapsed.Milliseconds) := by
      simp only [step]
      split <;> omega
    simp only [steps]
    refine ⟨by omega, ?_, ?_⟩
    · intro m' hm'
      rcases List.mem_cons.mp hm' with e | hin
      · subst e; omega
      · exact h2 m' hin
    · rcases h3 with e | ⟨m', hin, e⟩
      · rcases hs.2.2 with e' | e'
        · left; omega
        · right; exact ⟨m, List.mem_cons_self _ _, by omega⟩
      · right; exact ⟨m', List.mem_cons_of_mem _ hin, e⟩

theorem steps_smallest (i : Nat) (ms : List Measurement) (a : Acc) :
    (steps i ms a).smallestRes ≤ a.smallestRes
    ∧ (∀ m ∈ ms, (steps i ms a).smallestRes ≤ m.totalBytes)
    ∧ ((steps i ms a).smallestRes = a.smallestRes
      ∨ ∃ m ∈ ms, (steps i ms a).smallestRes = m.totalBytes) := by
  induction ms generalizing i a with
  | nil => simp [steps]
  | cons m ms ih =>
    obtain ⟨h1, h2, h3⟩ := ih (i + 1) (step i m a)
    have hs : (step i m a).smallestRes ≤ a.smallestRes
        ∧ (step i m a).smallestRes ≤ m.totalBytes
        ∧ ((step i m a).smallestRes = a.smallestRes
          ∨ (step i m a).smallestRes = m.totalBytes) := by
      simp only [step]
      split <;> omega
    simp only [steps]
    refine ⟨by omega, ?_, ?_⟩
    · intro m' hm'
      rcases List.mem_cons.mp hm' with e | hin
      · subst e; omega
      · exact h2 m' hin
    · rcases h3 with e | ⟨m', hin, e⟩
      · rcases hs.2.2 with e' | e'
        · left; omega
        · right; exact ⟨m, List.mem_cons_self _ _, by omega⟩
      · right; exact ⟨m', List.mem_cons_of_mem _ hin, e⟩

theorem steps_largest (i : Nat) (ms : List Measurement) (a : Acc) :
    a.largestRes ≤ (steps i ms a).largestRes
    ∧ (∀ m ∈ ms, m.totalBytes ≤ (steps i ms a).largestRes)
    ∧ ((steps i ms a).largestRes = a.largestRes
      ∨ ∃ m ∈ ms, (steps i ms a).largestRes = m.totalBytes) := by
  induction ms generalizing i a with
  | nil => simp [steps]
  | cons m ms ih =>
    obtain ⟨h1, h2, h3⟩ := ih (i + 1) (step i m a)
    have hs : a.largestRes ≤ (step i m a).largestRes
        ∧ m.totalBytes ≤ (step i m a).largestRes
        ∧ ((step i m a).largestRes = a.largestRes
          ∨ (step i m a).largestRes = m.totalBytes) := by
      simp only [step]
      split <;> omega
    simp only [steps]
    refine ⟨by omega, ?_, ?_⟩
    · intro m' hm'
      rcases List.mem_cons.mp hm' with e | hin
      · subst e; omega
      · exact h2 m' hin
    · rcases h3 with e | ⟨m', hin, e⟩
      · rcases hs.2.2 with e' | e'
        · left; omega
        · right; exact ⟨m, List.mem_cons_self _ _, by omega⟩
      · right; exact ⟨m', List.mem_cons_of_mem _ hin, e⟩

theorem steps_errorCodes (i : Nat) (ms : List Measurement) (a : Acc) (c : Bytes) :
    c ∈ (steps i ms a).errorCodes ↔
      c ∈ a.errorCodes ∨ ∃ m ∈ ms, m.status = c ∧ failed c = true := by
  induction ms generalizing i a with
  | nil => simp [steps]
  | cons m ms ih =>
    simp only [steps]
    rw [ih]
    have hs : c ∈ (step i m a).errorCodes ↔
        c ∈ a.errorCodes ∨ (m.status = c ∧ failed c = true) := by
      simp only [step]
      by_cases hf : failed m.status = true
      · by_cases hin : m.status ∈ a.errorCodes
        · rw [if_pos hf, if_pos hin]
          constructor
          · exact Or.inl
          · rintro (h | ⟨e, _⟩)
            · exact h
            · exact e ▸ hin
        · rw [if_pos hf, if_neg hin, List.mem_append, List.mem_singleton]
          constructor
          · rintro (h | e)
            · exact Or.inl h
            · exact Or.inr ⟨e.symm, e ▸ hf⟩
          · rintro (h | ⟨e, _⟩)
            · exact Or.inl h
            · exact Or.inr e.symm
      · rw [if_neg hf]
        constructor
        · exact Or.inl
        · rintro (h | ⟨e, hc⟩)
          · exact h
          · exact absurd (e ▸ hc) hf
    rw [hs]
    simp only [List.mem_cons, exists_eq_or_imp]
    tauto

theorem steps_errorCodes_nodup (i : Nat) (ms : List Measurement) (a : Acc)
    (h : a.errorCodes.Nodup) : (steps i ms a).errorCodes.Nodup := by
  induction ms generalizing i a with
  | nil => exact h
  | cons m ms ih =>
    simp only [steps]
    apply ih
    simp only [step]
    split
    · split
      · exact h
      · rename_i hin
        rw [List.nodup_append]
        refine ⟨h, List.nodup_singleton _, ?_⟩
        intro x hx hx'
        rw [List.mem_singleton] at hx'
        exact hin (hx' ▸ hx)
    · exact h

theorem steps_failCount (i : Nat) (ms : List Measurement) (a : Acc)
    (h0 : 0 ≤ a.failCount) (h : a.failCount + ms.length ≤ maxInt64) :
    (steps i ms a).failCount = a.failCount + ms.countP (fun m => failed m.status) := by
  induction ms generalizing i a with
  | nil => simp [steps]
  | cons m ms ih =>
    simp only [List.length_cons, Nat.cast_add, Nat.cast_one] at h
    unfold maxInt64 at h
    simp only [steps, List.countP_cons]
    by_cases hf : failed m.status = true
    · have hw : addInt a.failCount 1 = a.failCount + 1 := by
        unfold addInt
        exact wrap64_id _ (by omega) (by omega)
      rw [ih (i + 1) (step i m a) (by simp only [step, if_pos hf, hw]; omega)
        (by simp only [step, if_pos hf, hw]; unfold maxInt64; omega)]
      simp only [step, if_pos hf, hw, Nat.cast_add, Nat.cast_one]
      omega
    · rw [ih (i + 1) (step i m a) (by simp only [step, if_neg hf]; exact h0)
        (by simp only [step, if_neg hf]; unfold maxInt64; omega)]
      simp only [step, if_neg hf, Nat.cast_add, Nat.cast_zero]
      omega

theorem medianOf_sorted (n : Nat) (times : List Int) (hn : 0 < n) (hlen : times.length = n) :
    ∃ med, medianOf n (sortSlice times) = .ok med
      ∧ (n % 2 = 1 → (sortSlice times)[n / 2]? = some med)
      ∧ (n % 2 = 0 → ∃ lo hi, (sortSlice times)[n / 2 - 1]? = some lo
          ∧ (sortSlice times)[n / 2]? = some hi ∧ med = Int.tdiv (addInt hi lo) 2) := by
  have hl : (sortSlice times).length = n := by
    unfold sortSlice
    rw [List.length_insertionSort, hlen]
  unfold medianOf
  by_cases hpar : n % 2 = 0
  · rw [if_pos hpar]
    have h1 : n / 2 < (sortSlice times).length := by omega
    have h2 : n / 2 - 1 < (sortSlice times).length := by omega
    rw [List.getElem?_eq_getElem h1, List.getElem?_eq_getElem h2]
    exact ⟨_, rfl, fun h => by omega, fun _ => ⟨_, _, rfl, rfl, rfl⟩⟩
  · rw [if_neg hpar]
    have h1 : n / 2 < (sortSlice times).length := by omega
    rw [List.getElem?_eq_getElem h1]
    exact ⟨_, rfl, fun _ => rfl, fun h => absurd h hpar⟩

/-- When all `n ≥ 1` requests return, `getProfile` prints the summary of the
accumulators that the `n` loop iterations leave. -/
theorem getProfile_result (world : Nat → Exchange) (ms : List Measurement) (hne : ms ≠ [])
    (hw : ∀ i m, ms[i]? = some m →
      (httpsRequest (world i) profileHost profilePath false).result = .ret m) :
    ∃ med, medianOf ms.length (sortSlice (ms.map (·.elapsed.Milliseconds))) = .ok med
      ∧ (getProfile world ms.length).result = .ret (some {
          numReq := ms.length
          fastestTime := (steps 0 ms (Acc.init ms.length)).fastestTime
          slowestTime := (steps 0 ms (Acc.init ms.length)).slowestTime
          meanTime := Int.tdiv (steps 0 ms (Acc.init ms.length)).totalTime ms.length
          medianTime := med
          percentage :=
            (numSuccessful ms.length (steps 0 ms (Acc.init ms.length)).failCount).format
          errorCodes := (steps 0 ms (Acc.init ms.length)).errorCodes
          smallestRes := (steps 0 ms (Acc.init ms.length)).smallestRes
          largestRes := (steps 0 ms (Acc.init ms.length)).largestRes }) := by
  have hpos : 0 < ms.length := List.length_pos.mpr hne
  obtain ⟨med, hmed, -, -⟩ := medianOf_sorted ms.length (ms.map (·.elapsed.Milliseconds)) hpos
    (by simp)
  refine ⟨med, hmed, ?_⟩
  have hloop := requestLoop_eq world ms 0 (Acc.init ms.length)
    (by intro j m hj; rw [Nat.zero_add]; exact hw j m hj)
  unfold getProfile
  rw [if_neg (by omega), if_neg (by omega)]
  simp only [Int.toNat_natCast, hloop]
  unfold summarize
  rw [steps_times, hmed]

/-- A request of the profiler that returns leaves three events: its entry,
its write and its close. -/
theorem httpsRequest_quiet_events (env : Exchange) (host path : Bytes) (m : Measurement)
    (h : (httpsRequest env host path false).result = .ret m) :
    (httpsRequest env host path false).events.length = 3 := by
  unfold httpsRequest at h ⊢
  cases hpem : env.pemOk
  · simp [hpem] at h
  cases hpool : env.systemPool
  · simp [hpem, hpool] at h
  rcases hd : env.dialErr with _ | err
  · rcases hl : env.lines with _ | ⟨⟨l, b⟩, rest⟩
    · simp [hpem, hpool, hd, hl] at h
    · simp only [hpem, hpool, hd, hl]
      unfold finish
      cases slice l 9 12 <;> simp
  · simp [hpem, hpool, hd] at h

theorem requestLoop_events (world : Nat → Exchange) (ms : List Measurement) (i : Nat) (a : Acc)
    (hw : ∀ j m, ms[j]? = some m →
      (httpsRequest (world (i + j)) profileHost profilePath false).result = .ret m) :
    (requestLoop world ms.length i a).events.length = 3 * ms.length := by
  induction ms generalizing i a with
  | nil => rfl
  | cons m ms ih =>
    have h0 := hw 0 m (by simp)
    have hlen := httpsRequest_status_length _ _ _ _ m h0
    have hne : m.status ≠ [] := by
      intro e
      rw [e] at hlen
      cases hlen
    rw [Nat.add_zero] at h0
    have hev := httpsRequest_quiet_events _ _ _ m h0
    simp only [List.length_cons, requestLoop]
    rw [h0]
    simp only [record_eq_step i m a hne, List.length_append, hev]
    rw [ih (i + 1) (step i m a) (by
      intro j m' hj
      have := hw (j + 1) m' (by simpa using hj)
      rw [show i + 1 + j = i + (j + 1) by omega]
      exact this)]
    omega

/-- When all `n ≥ 1` requests return, the events of `getProfile` are the two
header lines, three events per request and then the lines of the summary. -/
theorem getProfile_events (world : Nat → Exchange) (ms : List Measurement) (hne : ms ≠ [])
    (hw : ∀ i m, ms[i]? = some m →
      (httpsRequest (world i) profileHost profilePath false).result = .ret m)
    (r : Summary) (hr : (getProfile world ms.length).result = .ret (some r)) :
    ∃ pre, pre.length = 2 + 3 * ms.length
      ∧ (getProfile world ms.length).events = pre ++ r.render := by
  have hpos : 0 < ms.length := List.length_pos.mpr hne
  have hloop := requestLoop_eq world ms 0 (Acc.init ms.length)
    (by intro j m hj; rw [Nat.zero_add]; exact hw j m hj)
  have hlen := requestLoop_events world ms 0 (Acc.init ms.length)
    (by intro j m hj; rw [Nat.zero_add]; exact hw j m hj)
  unfold getProfile at hr ⊢
  rw [if_neg (by omega), if_neg (by omega)] at hr ⊢
  simp only [Int.toNat_natCast, hloop] at hr ⊢
  rcases hs : summarize ms.length (steps 0 ms (Acc.init ms.length)) with f | s
  · simp only [hs] at hr
    cases hr
  · simp only [hs] at hr ⊢
    injection hr with hr
    injection hr with hr
    subst hr
    refine ⟨_, ?_, rfl⟩
    simp only [List.length_append, List.length_cons, List.length_nil, hlen]

/-! ### The lines of the summary -/

theorem render_median (r : Summary) :
    ∃ a b, a.length = 4 ∧ r.render
      = a ++ Event.stderr (B "Median response time: " ++ printInt r.medianTime ++ B " ms\n") :: b :=
  ⟨[.stderr (B "Number of requests: " ++ printInt r.numReq ++ B "\n"),
      .stderr (B "Fastest response time: " ++ printInt r.fastestTime ++ B " ms\n"),
      .stderr (B "Slowest response time: " ++ printInt r.slowestTime ++ B " ms\n"),
      .stderr (B "Mean response time: " ++ printInt r.meanTime ++ B " ms\n")],
    [.stdout (B "Percentage of requests that succeeded: " ++ r.percentage),
      .stderr (B "%\n"), .stderr (B "Error codes: ")]
    ++ r.errorCodes.map (fun k => Event.stdout (k ++ B " "))
    ++ [.stderr (B "\n"),
      .stderr (B "Smallest response (bytes): " ++ printInt r.smallestRes ++ B "\n"),
      .stderr (B "Largest response (bytes): " ++ printInt r.largestRes ++ B "\n"),
      .stderr (B "----------------------------------------------------\n")],
    rfl, by simp [Summary.render]⟩

theorem render_extremes (r : Summary) :
    ∃ a mid b, a.length = 1 ∧ b.length = 1 ∧ r.render
      = a
        ++ [Event.stderr (B "Fastest response time: " ++ printInt r.fastestTime ++ B " ms\n"),
          Event.stderr (B "Slowest response time: " ++ printInt r.slowestTime ++ B " ms\n")]
        ++ mid
        ++ [Event.stderr (B "Smallest response (bytes): " ++ printInt r.smallestRes ++ B "\n"),
          Event.stderr (B "Largest response (bytes): " ++ printInt r.largestRes ++ B "\n")]
        ++ b :=
  ⟨[.stderr (B "Number of requests: " ++ printInt r.numReq ++ B "\n")],
    [.stderr (B "Mean response time: " ++ printInt r.meanTime ++ B " ms\n"),
      .stderr (B "Median response time: " ++ printInt r.medianTime ++ B " ms\n"),
      .stdout (B "Percentage of requests that succeeded: " ++ r.percentage),
      .stderr (B "%\n"), .stderr (B "Error codes: ")]
    ++ r.errorCodes.map (fun k => Event.stdout (k ++ B " "))
    ++ [.stderr (B "\n")],
    [.stderr (B "----------------------------------------------------\n")],
    rfl, rfl, by simp [Summary.render]⟩

theorem render_percentage (r : Summary) :
    ∃ a b, a.length = 5 ∧ r.render
      = a ++ Event.stdout (B "Percentage of requests that succeeded: " ++ r.percentage)
          :: Event.stderr (B "%\n") :: b :=
  ⟨[.stderr (B "Number of requests: " ++ printInt r.numReq ++ B "\n"),
      .stderr (B "Fastest response time: " ++ printInt r.fastestTime ++ B " ms\n"),
      .stderr (B "Slowest response time: " ++ printInt r.slowestTime ++ B " ms\n"),
      .stderr (B "Mean response time: " ++ printInt r.meanTime ++ B " ms\n"),
      .stderr (B "Median response time: " ++ printInt r.medianTime ++ B " ms\n")],
    [.stderr (B "Error codes: ")]
    ++ r.errorCodes.map (fun k => Event.stdout (k ++ B " "))
    ++ [.stderr (B "\n"),
      .stderr (B "Smallest response (bytes): " ++ printInt r.smallestRes ++ B "\n"),
      .stderr (B "Largest response (bytes): " ++ printInt r.largestRes ++ B "\n"),
      .stderr (B "----------------------------------------------------\n")],
    rfl, by simp [Summary.render]⟩

theorem render_codes (r : Summary) :
    ∃ a b, a.length = 7 ∧ b.length = 3 ∧ r.render
      = a ++ [Event.stderr (B "Error codes: ")]
        ++ r.errorCodes.map (fun k => Event.stdout (k ++ B " "))
        ++ [Event.stderr (B "\n")] ++ b :=
  ⟨[.stderr (B "Number of requests: " ++ printInt r.numReq ++ B "\n"),
      .stderr (B "Fastest response time: " ++ printInt r.fastestTime ++ B " ms\n"),
      .stderr (B "Slowest response time: " ++ printInt r.slowestTime ++ B " ms\n"),
      .stderr (B "Mean response time: " ++ printInt r.meanTime ++ B " ms\n"),
      .stderr (B "Median response time: " ++ printInt r.medianTime ++ B " ms\n"),
      .stdout (B "Percentage of requests that succeeded: " ++ r.percentage),
      .stderr (B "%\n")],
    [.stderr (B "Smallest response (bytes): " ++ printInt r.smallestRes ++ B "\n"),
      .stderr (B "Largest response (bytes): " ++ printInt r.largestRes ++ B "\n"),
      .stderr (B "----------------------------------------------------\n")],
    rfl, rfl, by simp [Summary.render]⟩

/-! ## The statistics of `getProfile` -/

theorem returned_of_mem (world : Nat → Exchange) (ms : List Measurement)
    (hw : ∀ i m, ms[i]? = some m →
      (httpsRequest (world i) profileHost profilePath false).result = .ret m)
    (m : Measurement) (hm : m ∈ ms) :
    ∃ i, (httpsRequest (world i) profileHost profilePath false).result = .ret m := by
  obtain ⟨i, hi⟩ := List.mem_iff_getElem?.mp hm
  exact ⟨i, hw i m hi⟩

/-- C5: when the `n ≥ 1` requests of a profiling run return, `getProfile`
prints, as the fifth line of its summary, `Median response time: <m> ms`, where
with `s` the recorded milliseconds sorted ascending `m` is `s[n/2]` when `n`
is odd and `(s[n/2 - 1] + s[n/2]) / 2`, truncated, when `n` is even. -/
theorem median_reported (world : Nat → Exchange) (ms : List Measurement) (hne : ms ≠ [])
    (hw : ∀ i m, ms[i]? = some m →
      (httpsRequest (world i) profileHost profilePath false).result = .ret m) :
    ∃ r : Summary, (getProfile world ms.length).result = .ret (some r)
      ∧ (∃ pre post, pre.length = 2 + 3 * ms.length + 4
        ∧ (getProfile world ms.length).events
          = pre ++ Event.stderr (B "Median response time: " ++ printInt r.medianTime ++ B " ms\n")
              :: post)
      ∧ ∀ s : List Int, s.Perm (ms.map (·.elapsed.Milliseconds)) → s.Sorted (· ≤ ·) →
        (ms.length % 2 = 1 → s[ms.length / 2]? = some r.medianTime)
        ∧ (ms.length % 2 = 0 → ∃ lo hi, s[ms.length / 2 - 1]? = some lo
            ∧ s[ms.length / 2]? = some hi ∧ r.medianTime = Int.tdiv (lo + hi) 2) := by
  obtain ⟨med, hmed, hres⟩ := getProfile_result world ms hne hw
  obtain ⟨pre, hprelen, hev⟩ := getProfile_events world ms hne hw _ hres
  have hpos : 0 < ms.length := List.length_pos.mpr hne
  obtain ⟨med', hmed', hodd, heven⟩ :=
    medianOf_sorted ms.length (ms.map (·.elapsed.Milliseconds)) hpos (by simp)
  have hmm : med' = med := by
    rw [hmed] at hmed'
    injection hmed' with h
    exact h.symm
  subst hmm
  have hperm : (sortSlice (ms.map (·.elapsed.Milliseconds))).Perm
      (ms.map (·.elapsed.Milliseconds)) := List.perm_insertionSort _ _
  refine ⟨_, hres, ?_, ?_⟩
  · obtain ⟨a, b, ha, hab⟩ := render_median _
    refine ⟨pre ++ a, b, ?_, ?_⟩
    · rw [List.length_append, hprelen, ha]
    · rw [hev, hab]
      simp only [List.append_assoc]
  intro s hs hsorted
  have hseq : s = sortSlice (ms.map (·.elapsed.Milliseconds)) :=
    List.eq_of_perm_of_sorted (hs.trans hperm.symm) hsorted (List.sorted_insertionSort _ _)
  subst hseq
  refine ⟨hodd, ?_⟩
  intro hpar
  obtain ⟨lo, hi, hlo, hhi, hm⟩ := heven hpar
  refine ⟨lo, hi, hlo, hhi, ?_⟩
  have range : ∀ x, x ∈ sortSlice (ms.map (·.elapsed.Milliseconds)) →
      -9223372036854 ≤ x ∧ x ≤ 9223372036854 := by
    intro x hx
    obtain ⟨m, -, e⟩ := List.mem_map.mp (hperm.mem_iff.mp hx)
    rw [← e]
    exact milliseconds_range _
  have rlo := range lo (List.mem_iff_getElem?.mpr ⟨_, hlo⟩)
  have rhi := range hi (List.mem_iff_getElem?.mpr ⟨_, hhi⟩)
  show med' = _
  rw [hm]
  unfold addInt
  rw [wrap64_id _ (by omega) (by omega), add_comm]

/-- C5 on the two runs of the specification: the times 10, 20, 30 ms make
`getProfile` print `Median response time: 20 ms`, and the times 10, 20, 30,
40 ms make it print `Median response time: 25 ms`. -/
theorem median_reported_witness :
    (∃ r : Summary, (getProfile (replies threeTimes) 3).result = .ret (some r)
      ∧ ([10, 20, 30] : List Int)[1]? = some r.medianTime ∧ r.medianTime = 20
      ∧ ∃ pre post, pre.length = 15 ∧ (getProfile (replies threeTimes) 3).events
          = pre ++ Event.stderr (B "Median response time: 20 ms\n") :: post)
    ∧ (∃ r : Summary, (getProfile (replies fourTimes) 4).result = .ret (some r)
      ∧ (∃ lo hi, ([10, 20, 30, 40] : List Int)[1]? = some lo
        ∧ ([10, 20, 30, 40] : List Int)[2]? = some hi ∧ r.medianTime = Int.tdiv (lo + hi) 2)
      ∧ r.medianTime = 25
      ∧ ∃ pre post, pre.length = 18 ∧ (getProfile (replies fourTimes) 4).events
          = pre ++ Event.stderr (B "Median response time: 25 ms\n") :: post) := by
  constructor
  · obtain ⟨r, hr, ⟨pre, post, hl, hev⟩, hs⟩ := median_reported (replies threeTimes)
      [measured 10 100 (B "200"), measured 20 100 (B "200"), measured 30 100 (B "200")]
      (by simp) (by
        intro i m h
        rcases i with _ | _ | _ | i
        · obtain rfl := Option.some.inj h; decide
        · obtain rfl := Option.some.inj h; decide
        · obtain rfl := Option.some.inj h; decide
        · simp at h)
    have h1 := (hs [10, 20, 30] (by decide) (by decide)).1 rfl
    have e : r.medianTime = 20 := (Option.some.inj h1).symm.trans (by decide)
    refine ⟨r, hr, h1, e, pre, post, hl, ?_⟩
    rw [e] at hev
    exact hev
  · obtain ⟨r, hr, ⟨pre, post, hl, hev⟩, hs⟩ := median_reported (replies fourTimes)
      [measured 10 100 (B "200"), measured 20 100 (B "200"), measured 30 100 (B "200"),
        measured 40 100 (B "200")]
      (by simp) (by
        intro i m h
        rcases i with _ | _ | _ | _ | i
        · obtain rfl := Option.some.inj h; decide
        · obtain rfl := Option.some.inj h; decide
        · obtain rfl := Option.some.inj h; decide
        · obtain rfl := Option.some.inj h; decide
        · simp at h)
    have h2 := (hs [10, 20, 30, 40] (by decide) (by decide)).2 rfl
    obtain ⟨lo, hi, hlo, hhi, hm⟩ := h2
    have elo : lo = 20 := (Option.some.inj hlo).symm
    have ehi : hi = 30 := (Option.some.inj hhi).symm
    have e : r.medianTime = 25 := by rw [hm, elo, ehi]; decide
    refine ⟨r, hr, ⟨lo, hi, hlo, hhi, hm⟩, e, pre, post, hl, ?_⟩
    rw [e] at hev
    exact hev

/-- C6: when the `n ≥ 1` requests of a profiling run return measurements with
non-negative milliseconds and non-negative byte counts, `getProfile` prints
the lines `Fastest response time: <f> ms` and `Slowest response time: <s> ms`
(second and third of the summary) and `Smallest response (bytes): <a>` and
`Largest response (bytes): <b>` (before the closing rule), where `f` and `s`
are the least and the greatest of the recorded milliseconds and `a` and `b`
the least and the greatest of the byte counts. -/
theorem extremes_reported (world : Nat → Exchange) (ms : List Measurement) (hne : ms ≠ [])
    (hw : ∀ i m, ms[i]? = some m →
      (httpsRequest (world i) profileHost profilePath false).result = .ret m)
    (hnn : ∀ m ∈ ms, 0 ≤ m.elapsed.Milliseconds ∧ 0 ≤ m.totalBytes) :
    ∃ r, (getProfile world ms.length).result = .ret (some r)
      ∧ (∃ pre mid post, pre.length = 2 + 3 * ms.length + 1 ∧ post.length = 1
        ∧ (getProfile world ms.length).events
          = pre
            ++ [Event.stderr (B "Fastest response time: " ++ printInt r.fastestTime ++ B " ms\n"),
              Event.stderr (B "Slowest response time: " ++ printInt r.slowestTime ++ B " ms\n")]
            ++ mid
            ++ [Event.stderr (B "Smallest response (bytes): " ++ printInt r.smallestRes ++ B "\n"),
              Event.stderr (B "Largest response (bytes): " ++ printInt r.largestRes ++ B "\n")]
            ++ post)
      ∧ (r.fastestTime ∈ ms.map (·.elapsed.Milliseconds)
        ∧ ∀ m ∈ ms, r.fastestTime ≤ m.elapsed.Milliseconds)
      ∧ (r.slowestTime ∈ ms.map (·.elapsed.Milliseconds)
        ∧ ∀ m ∈ ms, m.elapsed.Milliseconds ≤ r.slowestTime)
      ∧ (r.smallestRes ∈ ms.map (·.totalBytes) ∧ ∀ m ∈ ms, r.smallestRes ≤ m.totalBytes)
      ∧ (r.largestRes ∈ ms.map (·.totalBytes) ∧ ∀ m ∈ ms, m.totalBytes ≤ r.largestRes) := by
  obtain ⟨med, -, hres⟩ := getProfile_result world ms hne hw
  obtain ⟨pre, hprelen, hev⟩ := getProfile_events world ms hne hw _ hres
  obtain ⟨m0, hm0⟩ := List.exists_mem_of_ne_nil ms hne
  have hbytes : ∀ m ∈ ms, m.totalBytes ≤ maxInt64 := by
    intro m hm
    obtain ⟨i, hi⟩ := returned_of_mem world ms hw m hm
    exact (httpsRequest_totalBytes_range _ _ _ _ m hi).2
  have htime : ∀ m ∈ ms, m.elapsed.Milliseconds ≤ maxInt64 := by
    intro m _
    have := (milliseconds_range m.elapsed).2
    unfold maxInt64
    omega
  refine ⟨_, hres, ?_, ⟨?_, ?_⟩, ⟨?_, ?_⟩, ⟨?_, ?_⟩, ⟨?_, ?_⟩⟩
  · obtain ⟨a, mid, b, ha, hb, hab⟩ := render_extremes _
    refine ⟨pre ++ a, mid, b, ?_, hb, ?_⟩
    · rw [List.length_append, hprelen, ha]
    · rw [hev, hab]
      simp only [List.append_assoc]
  · obtain ⟨-, h2, h3⟩ := steps_fastest 0 ms (Acc.init ms.length)
    rcases h3 with e | ⟨m, hm, e⟩
    · have h := h2 m0 hm0
      have h' := htime m0 hm0
      rw [e] at h
      simp only [Acc.init] at h e
      exact List.mem_map.mpr ⟨m0, hm0, by simp only [e, Acc.init]; omega⟩
    · exact List.mem_map.mpr ⟨m, hm, e.symm⟩
  · exact (steps_fastest 0 ms (Acc.init ms.length)).2.1
  · obtain ⟨-, h2, h3⟩ := steps_slowest 0 ms (Acc.init ms.length)
    rcases h3 with e | ⟨m, hm, e⟩
    · have h := h2 m0 hm0
      have h' := (hnn m0 hm0).1
      rw [e] at h
      simp only [Acc.init] at h e
      exact List.mem_map.mpr ⟨m0, hm0, by simp only [e, Acc.init]; omega⟩
    · exact List.mem_map.mpr ⟨m, hm, e.symm⟩
  · exact (steps_slowest 0 ms (Acc.init ms.length)).2.1
  · obtain ⟨-, h2, h3⟩ := steps_smallest 0 ms (Acc.init ms.length)
    rcases h3 with e | ⟨m, hm, e⟩
    · have h := h2 m0 hm0
      have h' := hbytes m0 hm0
      rw [e] at h
      simp only [Acc.init] at h e
      exact List.mem_map.mpr ⟨m0, hm0, by simp only [e, Acc.init]; omega⟩
    · exact List.mem_map.mpr ⟨m, hm, e.symm⟩
  · exact (steps_smallest 0 ms (Acc.init ms.length)).2.1
  · obtain ⟨-, h2, h3⟩ := steps_largest 0 ms (Acc.init ms.length)
    rcases h3 with e | ⟨m, hm, e⟩
    · have h := h2 m0 hm0
      have h' := (hnn m0 hm0).2
      rw [e] at h
      simp only [Acc.init] at h e
      exact List.mem_map.mpr ⟨m0, hm0, by simp only [e, Acc.init]; omega⟩
    · exact List.mem_map.mpr ⟨m, hm, e.symm⟩
  · exact (steps_largest 0 ms (Acc.init ms.length)).2.1

/-- C6 on the run of the specification: five successful requests with byte
counts 100, 150, 120, 200 and 90 print `Smallest response (bytes): 90` and
`Largest response (bytes): 200`, and with the times 12, 15, 11, 19 and 14 ms
they print `Fastest response time: 11 ms` and `Slowest response time: 19 ms`. -/
theorem extremes_reported_witness :
    ∃ r, (getProfile (replies fiveSizes) 5).result = .ret (some r)
      ∧ (r.smallestRes ∈ [100, 150, 120, 200, 90] ∧ r.smallestRes = 90)
      ∧ (r.largestRes ∈ [100, 150, 120, 200, 90] ∧ r.largestRes = 200)
      ∧ r.fastestTime = 11 ∧ r.slowestTime = 19
      ∧ ∃ pre mid post, pre.length = 18 ∧ post.length = 1
        ∧ (getProfile (replies fiveSizes) 5).events
          = pre
            ++ [Event.stderr (B "Fastest response time: 11 ms\n"),
              Event.stderr (B "Slowest response time: 19 ms\n")]
            ++ mid
            ++ [Event.stderr (B "Smallest response (bytes): 90\n"),
              Event.stderr (B "Largest response (bytes): 200\n")]
            ++ post := by
  obtain ⟨r, hr, ⟨pre, mid, post, hpre, hpost, hev⟩, -, -, ⟨hs, -⟩, ⟨hl, -⟩⟩ :=
    extremes_reported (replies fiveSizes)
    [measured 12 100 (B "200"), measured 15 150 (B "200"), measured 11 120 (B "200"),
      measured 19 200 (B "200"), measured 14 90 (B "200")]
    (by simp) (by
      intro i m h
      rcases i with _ | _ | _ | _ | _ | i
      · obtain rfl := Option.some.inj h; decide
      · obtain rfl := Option.some.inj h; decide
      · obtain rfl := Option.some.inj h; decide
      · obtain rfl := Option.some.inj h; decide
      · obtain rfl := Option.some.inj h; decide
      · simp at h)
    (by decide)
  have hr' : (getProfile (replies fiveSizes) 5).result
      = .ret (some ⟨5, 11, 19, 14, 14, B "100.00", [], 90, 200⟩) := by decide
  have e : r = ⟨5, 11, 19, 14, 14, B "100.00", [], 90, 200⟩ := by
    have := hr.symm.trans hr'
    injection this with this
    injection this
  refine ⟨r, hr, ⟨hs, by rw [e]⟩, ⟨hl, by rw [e]⟩, by rw [e], by rw [e], pre, mid, post,
    hpre, hpost, ?_⟩
  rw [e] at hev
  exact hev

theorem failed_eq (status : Bytes) : failed status = (status.head? != some 0x32) := rfl

/-- C7 (amended): when the `n ≥ 1` requests of a profiling run return, the
reported percentage is computed in single precision: with `failCount` the
number of status codes whose first byte is not `2`, it is the `float32`
quotient of `float32(n - failCount)` by `float32(n)`, times `100` in
`float32`, each operation rounded to nearest-even, and the result is printed
with two decimals, in the sixth line of the summary,
`Percentage of requests that succeeded: <p>%`. -/
theorem percentage_reported (world : Nat → Exchange) (ms : List Measurement) (hne : ms ≠ [])
    (hw : ∀ i m, ms[i]? = some m →
      (httpsRequest (world i) profileHost profilePath false).result = .ret m)
    (hfit : (ms.length : Int) ≤ maxInt64) :
    ∃ r, (getProfile world ms.length).result = .ret (some r)
      ∧ r.percentage =
        (((F32.ofInt ((ms.length : Int) - (ms.countP fun m => m.status.head? != some 0x32))).div
          (F32.ofInt ms.length)).mul (F32.ofInt 100)).format
      ∧ ∃ pre post, pre.length = 2 + 3 * ms.length + 5
        ∧ (getProfile world ms.length).events
          = pre ++ Event.stdout (B "Percentage of requests that succeeded: " ++ r.percentage)
              :: Event.stderr (B "%\n") :: post := by
  obtain ⟨med, -, hres⟩ := getProfile_result world ms hne hw
  obtain ⟨pre, hprelen, hev⟩ := getProfile_events world ms hne hw _ hres
  refine ⟨_, hres, ?_, ?_⟩
  swap
  · obtain ⟨a, b, ha, hab⟩ := render_percentage _
    refine ⟨pre ++ a, b, ?_, ?_⟩
    · rw [List.length_append, hprelen, ha]
    · rw [hev, hab]
      simp only [List.append_assoc]
  have hfc := steps_failCount 0 ms (Acc.init ms.length) (by simp [Acc.init])
    (by simpa [Acc.init] using hfit)
  have hle : ms.countP (fun m => failed m.status) ≤ ms.length := List.countP_le_length _
  have hfc' : (steps 0 ms (Acc.init ms.length)).failCount
      = (ms.countP (fun m => failed m.status) : Nat) := by
    rw [hfc]
    simp [Acc.init]
  show (numSuccessful _ _).format = _
  rw [hfc']
  unfold maxInt64 at hfit
  unfold numSuccessful
  rw [wrap64_id _ (by omega) (by omega)]
  rfl

/-- C7 (amended) on the two runs of the specification: four requests with one
failure are reported as `75.00`, and five requests that all return `200` are
reported as `100.00`. -/
theorem percentage_reported_witness :
    (∃ r, (getProfile (replies oneFailure) 4).result = .ret (some r)
      ∧ r.percentage = (((F32.ofInt (4 - 1)).div (F32.ofInt 4)).mul (F32.ofInt 100)).format
      ∧ r.percentage = B "75.00"
      ∧ ∃ pre post, pre.length = 19 ∧ (getProfile (replies oneFailure) 4).events
          = pre ++ Event.stdout (B "Percentage of requests that succeeded: 75.00")
              :: Event.stderr (B "%\n") :: post)
    ∧ (∃ r, (getProfile (replies fiveSizes) 5).result = .ret (some r)
      ∧ r.percentage = (((F32.ofInt (5 - 0)).div (F32.ofInt 5)).mul (F32.ofInt 100)).format
      ∧ r.percentage = B "100.00"
      ∧ ∃ pre post, pre.length = 22 ∧ (getProfile (replies fiveSizes) 5).events
          = pre ++ Event.stdout (B "Percentage of requests that succeeded: 100.00")
              :: Event.stderr (B "%\n") :: post) := by
  constructor
  · obtain ⟨r, hr, hp, pre, post, hl, hev⟩ := percentage_reported (replies oneFailure)
      [measured 10 100 (B "200"), measured 20 100 (B "500"), measured 30 100 (B "200"),
        measured 40 100 (B "200")]
      (by simp) (by
        intro i m h
        rcases i with _ | _ | _ | _ | i
        · obtain rfl := Option.some.inj h; decide
        · obtain rfl := Option.some.inj h; decide
        · obtain rfl := Option.some.inj h; decide
        · obtain rfl := Option.some.inj h; decide
        · simp at h)
      (by decide)
    have e : r.percentage = B "75.00" := hp.trans (by decide)
    refine ⟨r, hr, hp, e, pre, post, hl, ?_⟩
    rw [e] at hev
    exact hev
  · obtain ⟨r, hr, hp, pre, post, hl, hev⟩ := percentage_reported (replies fiveSizes)
      [measured 12 100 (B "200"), measured 15 150 (B "200"), measured 11 120 (B "200"),
        measured 19 200 (B "200"), measured 14 90 (B "200")]
      (by simp) (by
        intro i m h
        rcases i with _ | _ | _ | _ | _ | i
        · obtain rfl := Option.some.inj h; decide
        · obtain rfl := Option.some.inj h; decide
        · obtain rfl := Option.some.inj h; decide
        · obtain rfl := Option.some.inj h; decide
        · obtain rfl := Option.some.inj h; decide
        · simp at h)
      (by decide)
    have e : r.percentage = B "100.00" := hp.trans (by decide)
    refine ⟨r, hr, hp, e, pre, post, hl, ?_⟩
    rw [e] at hev
    exact hev

/-- C7 as stated fails for 947 requests of which 176 fail: the exact value of
`(947 - 176) / 947 * 100` lies between 81.41 and 81.415, so to two decimals it
is 81.41, and `getProfile` reports `81.42`. -/
theorem percentage_counterexample :
    (∃ r, (getProfile world947 947).result = .ret (some r) ∧ r.percentage = B "81.42")
    ∧ (8141 * 947 ≤ 100 * (100 * (947 - 176)) ∧ 1000 * (100 * (947 - 176)) < 81415 * 947) := by
  refine ⟨?_, by decide⟩
  have hlen : measured947.length = 947 := by
    simp only [measured947, List.length_append, List.length_replicate]
  have hw : ∀ i m, measured947[i]? = some m →
      (httpsRequest (world947 i) profileHost profilePath false).result = .ret m := by
    intro i m h
    unfold world947
    unfold measured947 at h
    by_cases hi : i < 176
    · rw [List.getElem?_append_left (by rw [List.length_replicate]; exact hi),
        List.getElem?_replicate, if_pos hi] at h
      obtain rfl := Option.some.inj h
      rw [if_pos hi]
      decide
    · rw [List.getElem?_append_right (by rw [List.length_replicate]; omega),
        List.getElem?_replicate] at h
      split at h
      · obtain rfl := Option.some.inj h
        rw [if_neg hi]
        decide
      · cases h
  have hne : measured947 ≠ [] := by
    intro e
    rw [e] at hlen
    cases hlen
  obtain ⟨med, -, hres⟩ := getProfile_result world947 measured947 hne hw
  have hfc := steps_failCount 0 measured947 (Acc.init measured947.length) (Int.le_refl 0)
    (by rw [hlen]; decide)
  have hcount : measured947.countP (fun m => failed m.status) = 176 := by
    unfold measured947
    rw [List.countP_append, List.countP_replicate, List.countP_replicate]
    decide
  rw [hcount] at hfc
  rw [hlen] at hres hfc
  refine ⟨_, hres, ?_⟩
  show (numSuccessful _ _).format = _
  rw [hfc]
  decide

theorem countP_eq_one_of_nodup (l : List Bytes) (c : Bytes) (hnd : l.Nodup) (h : c ∈ l) :
    l.countP (fun k => decide (k = c)) = 1 := by
  induction l with
  | nil => cases h
  | cons a l ih =>
    obtain ⟨hnot, hnd'⟩ := List.nodup_cons.mp hnd
    rw [List.countP_cons]
    by_cases e : a = c
    · subst e
      have hz : l.countP (fun k => decide (k = a)) = 0 := by
        rw [List.countP_eq_zero]
        intro k hk
        simp only [decide_eq_true_eq]
        intro e'
        exact hnot (e' ▸ hk)
      simp [hz]
    · have hc : c ∈ l := by
        rcases List.mem_cons.mp h with e' | hc
        · exact absurd e'.symm e
        · exact hc
      simp [e, ih hnd' hc]

/-- C8: when the requests of a profiling run return, `getProfile` prints,
between `Error codes: ` and the end of that line, one entry `<code> ` for each
member of a list of codes without repetition, and a code is in that list if
and only if it is the status code of some request and its first byte is not
`2`: each such code is printed once, however many requests returned it. -/
theorem error_codes_reported (world : Nat → Exchange) (ms : List Measurement) (hne : ms ≠ [])
    (hw : ∀ i m, ms[i]? = some m →
      (httpsRequest (world i) profileHost profilePath false).result = .ret m) :
    ∃ r, (getProfile world ms.length).result = .ret (some r)
      ∧ (∃ pre post, pre.length = 2 + 3 * ms.length + 7 ∧ post.length = 3
        ∧ (getProfile world ms.length).events
          = pre ++ [Event.stderr (B "Error codes: ")]
            ++ r.errorCodes.map (fun k => Event.stdout (k ++ B " "))
            ++ [Event.stderr (B "\n")] ++ post)
      ∧ (∀ c, c ∈ r.errorCodes ↔ ∃ m ∈ ms, m.status = c ∧ c.head? ≠ some 0x32)
      ∧ r.errorCodes.Nodup
      ∧ (∀ c, (∃ m ∈ ms, m.status = c ∧ c.head? ≠ some 0x32) →
        r.errorCodes.countP (fun k => decide (k = c)) = 1) := by
  obtain ⟨med, -, hres⟩ := getProfile_result world ms hne hw
  obtain ⟨pre, hprelen, hev⟩ := getProfile_events world ms hne hw _ hres
  have hprint : ∃ pre' post, pre'.length = 2 + 3 * ms.length + 7 ∧ post.length = 3
      ∧ (getProfile world ms.length).events
        = pre' ++ [Event.stderr (B "Error codes: ")]
          ++ (steps 0 ms (Acc.init ms.length)).errorCodes.map (fun k => Event.stdout (k ++ B " "))
          ++ [Event.stderr (B "\n")] ++ post := by
    obtain ⟨a, b, ha, hb, hab⟩ := render_codes _
    refine ⟨pre ++ a, b, ?_, hb, ?_⟩
    · rw [List.length_append, hprelen, ha]
    · rw [hev, hab]
      simp only [List.append_assoc]
  have hmem : ∀ c, c ∈ (steps 0 ms (Acc.init ms.length)).errorCodes ↔
      ∃ m ∈ ms, m.status = c ∧ c.head? ≠ some 0x32 := by
    intro c
    rw [steps_errorCodes]
    simp [Acc.init, failed_eq]
  have hnd : (steps 0 ms (Acc.init ms.length)).errorCodes.Nodup :=
    steps_errorCodes_nodup 0 ms _ (by simp [Acc.init])
  exact ⟨_, hres, hprint, hmem, hnd,
    fun c hc => countP_eq_one_of_nodup _ c hnd ((hmem c).mpr hc)⟩

/-- C8 on the two runs of the specification: two failed requests that both
return `500` print the one entry `500 ` after `Error codes: `, and requests
that all return `200` print no entry. -/
theorem error_codes_reported_witness :
    (∃ r, (getProfile (replies twoFailures) 3).result = .ret (some r)
      ∧ r.errorCodes.countP (fun k => decide (k = B "500")) = 1 ∧ r.errorCodes = [B "500"]
      ∧ ∃ pre post, pre.length = 18 ∧ post.length = 3
        ∧ (getProfile (replies twoFailures) 3).events
          = pre ++ [Event.stderr (B "Error codes: ")] ++ [Event.stdout (B "500 ")]
            ++ [Event.stderr (B "\n")] ++ post)
    ∧ (∃ r, (getProfile (replies fiveSizes) 5).result = .ret (some r)
      ∧ (∀ c, c ∈ r.errorCodes ↔ ∃ m ∈ [measured 12 100 (B "200"), measured 15 150 (B "200"),
          measured 11 120 (B "200"), measured 19 200 (B "200"), measured 14 90 (B "200")],
          m.status = c ∧ c.head? ≠ some 0x32)
      ∧ r.errorCodes = []
      ∧ ∃ pre post, pre.length = 24 ∧ post.length = 3
        ∧ (getProfile (replies fiveSizes) 5).events
          = pre ++ [Event.stderr (B "Error codes: ")] ++ [] ++ [Event.stderr (B "\n")] ++ post) := by
  constructor
  · obtain ⟨r, hr, ⟨pre, post, hpre, hpost, hev⟩, -, -, hc⟩ :=
      error_codes_reported (replies twoFailures)
      [measured 10 100 (B "500"), measured 20 100 (B "200"), measured 30 100 (B "500")]
      (by simp) (by
        intro i m h
        rcases i with _ | _ | _ | i
        · obtain rfl := Option.some.inj h; decide
        · obtain rfl := Option.some.inj h; decide
        · obtain rfl := Option.some.inj h; decide
        · simp at h)
    have hr' : (getProfile (replies twoFailures) 3).result
        = .ret (some ⟨3, 10, 30, 20, 20, B "33.33", [B "500"], 100, 100⟩) := by decide
    have e : r = ⟨3, 10, 30, 20, 20, B "33.33", [B "500"], 100, 100⟩ := by
      have := hr.symm.trans hr'
      injection this with this
      injection this
    refine ⟨r, hr, hc (B "500") ⟨measured 10 100 (B "500"), by simp, rfl, by decide⟩,
      by rw [e], pre, post, hpre, hpost, ?_⟩
    rw [e] at hev
    exact hev
  · obtain ⟨r, hr, ⟨pre, post, hpre, hpost, hev⟩, hm, -, -⟩ :=
      error_codes_reported (replies fiveSizes)
      [measured 12 100 (B "200"), measured 15 150 (B "200"), measured 11 120 (B "200"),
        measured 19 200 (B "200"), measured 14 90 (B "200")]
      (by simp) (by
        intro i m h
        rcases i with _ | _ | _ | _ | _ | i
        · obtain rfl := Option.some.inj h; decide
        · obtain rfl := Option.some.inj h; decide
        · obtain rfl := Option.some.inj h; decide
        · obtain rfl := Option.some.inj h; decide
        · obtain rfl := Option.some.inj h; decide
        · simp at h)
    have hr' : (getProfile (replies fiveSizes) 5).result
        = .ret (some ⟨5, 11, 19, 14, 14, B "100.00", [], 90, 200⟩) := by decide
    have e : r = ⟨5, 11, 19, 14, 14, B "100.00", [], 90, 200⟩ := by
      have := hr.symm.trans hr'
      injection this with this
      injection this
    refine ⟨r, hr, hm, by rw [e], pre, post, hpre, hpost, ?_⟩
    rw [e] at hev
    exact hev

end BootlegPostman
